import Mathlib

/-!
Shallow embedding of the AL_omx modifier/undo core (AL/omx/_xmodifier.py,
AL/omx/_xcommand.py) and of the plug helpers (AL/omx/utils/_plugs.py,
AL/omx/_xplug.py), together with theorems settling the frozen claims.

The Maya "Graph Host" is out of scope of the repository (spec section 6); it is
modelled here as a host world holding a node table plus an ordered event trace
of applied/reverted host-transaction operations.  Node and attribute handles
are natural-number identities.  Python exceptions are modelled with `Except`
and an explicit error kind; functions that mutate state while possibly raising
return the mutated state together with an optional error, mirroring the fact
that a Python exception leaves the already-performed mutations in place.
-/

/-- The Python exception kinds the embedded code can raise. -/
inductive PyError where
  | typeError
  | runtimeError
  | attributeError
  | indexError
  | userError (code : Nat)
  deriving DecidableEq, Repr

instance {e a : Type} [DecidableEq e] [DecidableEq a] : DecidableEq (Except e a)
  | .ok x, .ok y =>
      if h : x = y then isTrue (by rw [h])
      else isFalse (fun hh => by cases hh; exact h rfl)
  | .ok _, .error _ => isFalse (fun hh => by cases hh)
  | .error _, .ok _ => isFalse (fun hh => by cases hh)
  | .error x, .error y =>
      if h : x = y then isTrue (by rw [h])
      else isFalse (fun hh => by cases hh; exact h rfl)

/-- Host transaction primitives recorded by an `MModifier`
    (the subset of the `om2.MDagModifier` surface the claims exercise).
    Node arguments are identities (`Nat`); `createDagPair` is the host
    behaviour of `createNode(type, parent=kNullObj)` for a non-transform
    type, where Maya allocates an auto parent transform plus the requested
    child (quoted in the `XModifier.createDagNode` docstring). -/
inductive HostOp where
  | createDGNode (mob : Nat) (typeName : String)
  | createDagNode (mob : Nat) (typeName : String) (parent : Option Nat)
  | createDagPair (trn : Nat) (child : Nat) (typeName : String)
  | renameNode (mob : Nat) (newName : String)
  | reparentNode (mob : Nat) (newParent : Option Nat)
  | command (cmd : String)
  deriving DecidableEq, Repr

/-- One event of the host-side trace: an operation was applied (`doIt`) or
    reverted (`undoIt`).  The trace order is the ground truth for the
    ordering claims (C1, C2, C4). -/
inductive HEvent where
  | did (op : HostOp)
  | undid (op : HostOp)
  deriving DecidableEq, Repr

/-- A host node object.  `added` distinguishes an allocated `MObject` (which
    exists and answers type queries as soon as the create operation is
    recorded) from a node actually added to the graph (after `doIt`);
    graph queries (`objExists`, children) only see added nodes. -/
structure WNode where
  typeName : String
  name : String
  dag : Bool
  parents : List Nat
  added : Bool
  deriving DecidableEq, Repr

/-- The host world: allocated node objects (association list, first match
    wins), a fresh-identity counter, and the applied/reverted event trace. -/
structure World where
  nextId : Nat
  nodes : List (Nat × WNode)
  trace : List HEvent
  deriving DecidableEq, Repr

namespace World

def empty : World := ⟨0, [], []⟩

def findNode (w : World) (id : Nat) : Option WNode :=
  (w.nodes.find? (fun p => p.1 = id)).map (fun p => p.2)

/-- `MObject.hasFn(om2.MFn.kDagNode)` for a node identity. -/
def nodeIsDag (w : World) (id : Nat) : Bool :=
  ((w.findNode id).map (fun n => n.dag)).getD false

/-- `MFnDagNode.parent(i)` enumeration source: the parents recorded for
    the node (empty list means parented under the world). -/
def parentsOf (w : World) (id : Nat) : List Nat :=
  ((w.findNode id).map (fun n => n.parents)).getD []

def typeNameOf (w : World) (id : Nat) : Option String :=
  (w.findNode id).map (fun n => n.typeName)

/-- Children visible to a graph query (`MFnDagNode.childCount`/`child`):
    nodes added to the graph whose parents include `id`, in allocation
    order. -/
def childrenOf (w : World) (id : Nat) : List Nat :=
  (w.nodes.filter (fun p => p.2.added && id ∈ p.2.parents)).map (fun p => p.1)

/-- `cmds.objExists`: some node added to the graph bears this name. -/
def objExists (w : World) (name : String) : Bool :=
  w.nodes.any (fun p => p.2.added && p.2.name = name)

/-- Allocate a fresh node object (not yet added to the graph). -/
def alloc (w : World) (typeName : String) (dag : Bool) (parents : List Nat) :
    Nat × World :=
  (w.nextId,
   { w with
       nextId := w.nextId + 1
       nodes := w.nodes ++ [(w.nextId, ⟨typeName, "", dag, parents, false⟩)] })

def setAdded (nodes : List (Nat × WNode)) (id : Nat) (b : Bool) :
    List (Nat × WNode) :=
  nodes.map (fun p => if p.1 = id then (p.1, { p.2 with added := b }) else p)

def setName (nodes : List (Nat × WNode)) (id : Nat) (nm : String) :
    List (Nat × WNode) :=
  nodes.map (fun p => if p.1 = id then (p.1, { p.2 with name := nm }) else p)

def setParents (nodes : List (Nat × WNode)) (id : Nat) (ps : List Nat) :
    List (Nat × WNode) :=
  nodes.map (fun p => if p.1 = id then (p.1, { p.2 with parents := ps }) else p)

/-- Apply one recorded operation to the graph (`MDGModifier.doIt` step).
    Every application appends a `did` event to the trace. -/
def applyOp (w : World) (op : HostOp) : World :=
  match op with
  | .createDGNode mob _ =>
      { w with nodes := setAdded w.nodes mob true, trace := w.trace ++ [.did op] }
  | .createDagNode mob _ _ =>
      { w with nodes := setAdded w.nodes mob true, trace := w.trace ++ [.did op] }
  | .createDagPair trn child _ =>
      { w with nodes := setAdded (setAdded w.nodes trn true) child true,
               trace := w.trace ++ [.did op] }
  | .renameNode mob nm =>
      { w with nodes := setName w.nodes mob nm, trace := w.trace ++ [.did op] }
  | .reparentNode mob parent =>
      { w with nodes := setParents w.nodes mob parent.toList,
               trace := w.trace ++ [.did op] }
  | .command _ => { w with trace := w.trace ++ [.did op] }

/-- Revert one applied operation (`MDGModifier.undoIt` step): created nodes
    leave the graph again; the host-side reversal of renames, reparents and
    commands is the host's own concern and is observed by the claims only
    through the `undid` trace event. -/
def undoOp (w : World) (op : HostOp) : World :=
  match op with
  | .createDGNode mob _ =>
      { w with nodes := setAdded w.nodes mob false, trace := w.trace ++ [.undid op] }
  | .createDagNode mob _ _ =>
      { w with nodes := setAdded w.nodes mob false, trace := w.trace ++ [.undid op] }
  | .createDagPair trn child _ =>
      { w with nodes := setAdded (setAdded w.nodes trn false) child false,
               trace := w.trace ++ [.undid op] }
  | _ => { w with trace := w.trace ++ [.undid op] }

def applyOps (w : World) (l : List HostOp) : World := l.foldl applyOp w

def undoOps (w : World) (l : List HostOp) : World := l.foldl undoOp w

end World

/-- `AL.omx.utils._modifiers.MModifier`: the owned host transaction object.
    `ops` is the full list of recorded operations, `applied` the count of
    operations already executed; `doIt` executes only the operations recorded
    since the previous `doIt` (the documented incremental contract) and
    `undoIt` reverts all executed operations newest first. -/
structure MModifier where
  ops : List HostOp
  applied : Nat
  deriving DecidableEq, Repr

namespace MModifier

def new : MModifier := ⟨[], 0⟩

/-- Operations recorded but not yet executed. -/
def pending (m : MModifier) : List HostOp := m.ops.drop m.applied

def doIt (m : MModifier) (w : World) : MModifier × World :=
  ({ m with applied := m.ops.length }, w.applyOps m.pending)

def undoIt (m : MModifier) (w : World) : MModifier × World :=
  ({ m with applied := 0 }, w.undoOps (m.ops.take m.applied).reverse)

/-- `MModifier.createDGNode`: the host allocates the `MObject` at record
    time (host-side type validation is part of the abstract host and not
    modelled); the node joins the graph when the operation is applied. -/
def createDGNode (m : MModifier) (w : World) (typeName : String) :
    Nat × MModifier × World :=
  let (mob, w') := w.alloc typeName false []
  (mob, { m with ops := m.ops ++ [.createDGNode mob typeName] }, w')

def renameNode (m : MModifier) (node : Nat) (newName : String) : MModifier :=
  { m with ops := m.ops ++ [.renameNode node newName] }

def reparentNode (m : MModifier) (node : Nat) (newParent : Option Nat) :
    MModifier :=
  { m with ops := m.ops ++ [.reparentNode node newParent] }

def commandToExecute (m : MModifier) (cmd : String) : MModifier :=
  { m with ops := m.ops ++ [.command cmd] }

end MModifier

/-- The host type registry (abstract collaborator): which type names resolve
    to DAG types and which of those are transform-capable containers. -/
structure TypeRegistry where
  isDagType : String → Bool
  isTransformType : String → Bool

/-- `MModifier.createDagNode` = `om2.MDagModifier.createNode(type, parent)`:
    raises `TypeError` at the call when the type name does not resolve or the
    supplied parent is not a transform type (per its documentation); with a
    null parent and a non-transform type the host allocates the auto parent
    transform together with the requested child and returns the transform. -/
def MModifier.createDagNode (reg : TypeRegistry) (m : MModifier) (w : World)
    (typeName : String) (parent : Option Nat) :
    Except PyError (Nat × MModifier × World) :=
  if ¬ reg.isDagType typeName then .error .typeError
  else
    match parent with
    | some p =>
        match w.typeNameOf p with
        | some pt =>
            if reg.isTransformType pt then
              let (mob, w') := w.alloc typeName true [p]
              .ok (mob, { m with ops := m.ops ++ [.createDagNode mob typeName (some p)] }, w')
            else .error .typeError
        | none => .error .typeError
    | none =>
        if reg.isTransformType typeName then
          let (mob, w') := w.alloc typeName true []
          .ok (mob, { m with ops := m.ops ++ [.createDagNode mob typeName none] }, w')
        else
          let (trn, w1) := w.alloc "transform" true []
          let (child, w2) := w1.alloc typeName true [trn]
          .ok (trn, { m with ops := m.ops ++ [.createDagPair trn child typeName] }, w2)

/-- `_xmodifier.XModifierLog`: one journal record (operation name plus a
    rendered snapshot of the call arguments). -/
structure XModifierLog where
  method : String
  values : List (String × String)
  deriving DecidableEq, Repr

/-- `_xmodifier.XModifier`: wraps one `MModifier` plus its journal.
    `_reset` (= the constructor tail) allocates a fresh transaction,
    empties the journal and marks the modifier clean. -/
structure XModifier where
  immediate : Bool
  mmod : MModifier
  journal : List XModifierLog
  clean : Bool
  deriving DecidableEq, Repr

namespace XModifier

/-- `XModifier.__init__` / `XModifier._reset`. -/
def new (immediate : Bool) : XModifier :=
  ⟨immediate, MModifier.new, [], true⟩

/-- `XModifier.isClean`. -/
def isClean (x : XModifier) : Bool := x.clean

end XModifier

/-- `_xmodifier.DoItModifierWrapper`: pairs the `XModifier` (kept for journal
    rendering in error reports) with its host transaction.  Host failures are
    re-raised with the journal text in the source; host application is total
    in this model, so `doIt`/`undoIt` reduce to the `MModifier` calls. -/
structure DoItModifierWrapper where
  xmod : XModifier
  mmod : MModifier
  deriving DecidableEq, Repr

namespace DoItModifierWrapper

def doIt (d : DoItModifierWrapper) (w : World) : DoItModifierWrapper × World :=
  let (m', w') := d.mmod.doIt w
  ({ d with mmod := m' }, w')

def undoIt (d : DoItModifierWrapper) (w : World) : DoItModifierWrapper × World :=
  let (m', w') := d.mmod.undoIt w
  ({ d with mmod := m' }, w')

def redoIt (d : DoItModifierWrapper) (w : World) : DoItModifierWrapper × World :=
  d.doIt w

end DoItModifierWrapper

/-- `_xcommand.XCommand`: the dynamically registered undoable host command;
    its state is the modifier stack drained at construction time. -/
structure XCommand where
  modifiers : List DoItModifierWrapper
  deriving DecidableEq, Repr

namespace XCommand

/-- `XCommand.doIt`: apply every runnable in stack order, oldest first. -/
def doIt (c : XCommand) (w : World) : XCommand × World :=
  let (ms, w') :=
    c.modifiers.foldl
      (fun acc d =>
        let (d', w') := d.doIt acc.2
        (acc.1 ++ [d'], w'))
      (([] : List DoItModifierWrapper), w)
  (⟨ms⟩, w')

/-- `XCommand.redoIt`: identical loop to `doIt`. -/
def redoIt (c : XCommand) (w : World) : XCommand × World :=
  let (ms, w') :=
    c.modifiers.foldl
      (fun acc d =>
        let (d', w') := d.doIt acc.2
        (acc.1 ++ [d'], w'))
      (([] : List DoItModifierWrapper), w)
  (⟨ms⟩, w')

/-- `XCommand.undoIt`: revert every runnable, newest first. -/
def undoIt (c : XCommand) (w : World) : XCommand × World :=
  let (ms, w') :=
    c.modifiers.reverse.foldl
      (fun acc d =>
        let (d', w') := d.undoIt acc.2
        (acc.1 ++ [d'], w'))
      (([] : List DoItModifierWrapper), w)
  (⟨ms.reverse⟩, w')

end XCommand

/-- `_xmodifier.NodeCreationLog`: a stack of lists of tracked node handles;
    entries are first-in-last-out so nested tracking scopes work. -/
structure NodeCreationLog where
  log : List (List Nat)
  isActive : Bool
  deriving DecidableEq, Repr

namespace NodeCreationLog

def empty : NodeCreationLog := ⟨[], false⟩

/-- `NodeCreationLog.beginNewLog`. -/
def beginNewLog (l : NodeCreationLog) : NodeCreationLog :=
  { log := l.log ++ [[]], isActive := true }

/-- `NodeCreationLog.clearLogEntry`: with `clearAll` the source first empties
    the log and then unconditionally pops, so the pop raises `IndexError` on
    the now-empty list; active status is recomputed only when the pop
    succeeds. -/
def clearLogEntry (l : NodeCreationLog) (clearAll : Bool) :
    Except PyError NodeCreationLog :=
  let lg := if clearAll then [] else l.log
  if lg.isEmpty then .error .indexError
  else .ok { log := lg.dropLast, isActive := decide (1 ≤ lg.dropLast.length) }

/-- `NodeCreationLog.trackedNodes`: empty log answers empty; otherwise the
    whole flattened log or just the innermost level. -/
def trackedNodes (l : NodeCreationLog) (queryAll : Bool) : List Nat :=
  if l.log.isEmpty then []
  else if queryAll then l.log.flatten
  else l.log.getLastD []

/-- `NodeCreationLog.trackNode`: append onto the innermost level when the log
    is active.  (An active log always has a level in every state reachable
    without a raised `clearLogEntry`.) -/
def trackNode (l : NodeCreationLog) (node : Nat) : NodeCreationLog :=
  if ¬ l.isActive then l
  else { l with log := l.log.dropLast ++ [l.log.getLastD [] ++ [node]] }

end NodeCreationLog

/-- `_xmodifier.startTrackingNodes` acting on the process-wide log. -/
def startTrackingNodes (l : NodeCreationLog) : NodeCreationLog :=
  l.beginNewLog

/-- `_xmodifier.endTrackingNodes`: inactive log answers `[]`; otherwise read
    the tracked nodes and clear the last (or, with `endAll`, every) level. -/
def endTrackingNodes (l : NodeCreationLog) (endAll : Bool) :
    Except PyError (List Nat × NodeCreationLog) :=
  if ¬ l.isActive then .ok ([], l)
  else
    let createdNodes := l.trackedNodes endAll
    (l.clearLogEntry endAll).map (fun l' => (createdNodes, l'))

/-- `_xmodifier.queryTrackedNodes`. -/
def queryTrackedNodes (l : NodeCreationLog) (queryAll : Bool) : List Nat :=
  if ¬ l.isActive then [] else l.trackedNodes queryAll

/-- The process-wide session state: `_CURRENT_MODIFIER_LIST`, the host world
    and the node creation log.  Aliasing between client references and stack
    entries is modelled by addressing stack members by index. -/
structure Session where
  stack : List XModifier
  world : World
  log : NodeCreationLog
  deriving DecidableEq, Repr

namespace Session

def empty : Session := ⟨[], World.empty, NodeCreationLog.empty⟩

end Session

/-- `_xmodifier.getAndClearModifierStack`: walk the stack in push order,
    skip clean modifiers, wrap the rest, then empty the stack.  (Stack
    entries are `XModifier`s in this model; the `MAnimCurveChange` branch of
    the source is out of the claims' scope.) -/
def getAndClearModifierStack (s : Session) :
    List DoItModifierWrapper × Session :=
  let existingMods :=
    s.stack.foldl
      (fun acc xmod =>
        if xmod.isClean then acc else acc ++ [DoItModifierWrapper.mk xmod xmod.mmod])
      ([] : List DoItModifierWrapper)
  (existingMods, { s with stack := [] })

/-- `cmds.AL_OMXCommand()`: Maya instantiates the registered command (which
    drains the stack, `XCommand.__init__`) and runs its `doIt`. -/
def Session.invokeALOMXCommand (s : Session) : XCommand × Session :=
  let (wrappers, s') := getAndClearModifierStack s
  let (c, w') := XCommand.doIt ⟨wrappers⟩ s'.world
  (c, { s' with world := w' })

/-- `_xmodifier.executeModifiersWithUndo`: push one undoable command through
    the host when any modifier is pending; the returned command is what the
    host undo queue later drives. -/
def executeModifiersWithUndo (s : Session) : Option XCommand × Session :=
  if s.stack.isEmpty then (none, s)
  else
    let (c, s') := s.invokeALOMXCommand
    (some c, s')

/-- `XModifier.doIt` for the stack member at index `i` (invalid indices keep
    the session; every use sites an in-stack modifier, matching the
    `self in _CURRENT_MODIFIER_LIST` situation of the source).  Immediate
    mode routes through `AL_OMXCommand` — draining the whole stack — and then
    resets, which empties the journal regardless of `keepJournal`; deferred
    mode applies the owned transaction directly and honours `keepJournal`. -/
def Session.xmodDoIt (s : Session) (i : Nat) (keepJournal : Bool) :
    XModifier × Session :=
  if h : i < s.stack.length then
    let x := s.stack.get ⟨i, h⟩
    if x.immediate then
      -- `finally`: journal kept when `keepJournal`, then `_reset` replaces
      -- transaction and journal and marks the modifier clean.
      let x' : XModifier := ⟨true, MModifier.new, [], true⟩
      (x', (s.invokeALOMXCommand).2)
    else
      let x' : XModifier :=
        { x with mmod := (x.mmod.doIt s.world).1
                 journal := if keepJournal then x.journal else [] }
      (x', { s with stack := s.stack.set i x', world := (x.mmod.doIt s.world).2 })
  else (XModifier.new false, s)

/-- `_xmodifier.currentModifier`: last stack member, or a fresh immediate
    modifier pushed onto an empty stack; returns the member's index. -/
def Session.currentModifier (s : Session) : Nat × Session :=
  if s.stack.isEmpty then (0, { s with stack := [XModifier.new true] })
  else (s.stack.length - 1, s)

/-- `_xmodifier.newModifier`: push a fresh deferred modifier. -/
def Session.newModifier (s : Session) : Nat × Session :=
  (s.stack.length, { s with stack := s.stack ++ [XModifier.new false] })

/-- `XModifier.commandToExecute` on the stack member at `i`, including the
    `_modifierMethod` wrapper steps: journal entry and dirty flag first, then
    the delegation, then the immediate-mode flush. -/
def Session.commandToExecute (s : Session) (i : Nat) (cmd : String) : Session :=
  if h : i < s.stack.length then
    let x := s.stack.get ⟨i, h⟩
    let x' : XModifier :=
      { x with
          journal := x.journal ++ [⟨"commandToExecute", [("command", cmd)]⟩]
          clean := false
          mmod := x.mmod.commandToExecute cmd }
    let s' := { s with stack := s.stack.set i x' }
    if x.immediate then (s'.xmodDoIt i false).2 else s'
  else s

/-- `XModifier.createDGNode` on the stack member at `i`: wrapper steps, the
    host create, the direct (unjournaled) rename, then the eager
    `self._modifier.doIt()` that materialises the node at once so the handle
    is valid, the creation-log tracking, and the immediate-mode flush.
    Returns the created node identity. -/
def Session.createDGNode (s : Session) (i : Nat)
    (typeName : String) (nodeName : String) : Nat × Session :=
  if h : i < s.stack.length then
    let x := s.stack.get ⟨i, h⟩
    let (mob, mmod1, w1) := x.mmod.createDGNode s.world typeName
    let mmod2 := if nodeName ≠ "" then mmod1.renameNode mob nodeName else mmod1
    let (mmod3, w2) := mmod2.doIt w1
    let x' : XModifier :=
      { x with
          journal := x.journal ++
            [⟨"createDGNode", [("typeName", typeName), ("nodeName", nodeName)]⟩]
          clean := false
          mmod := mmod3 }
    let s' : Session :=
      { s with stack := s.stack.set i x', world := w2, log := s.log.trackNode mob }
    if x.immediate then (mob, (s'.xmodDoIt i false).2) else (mob, s')
  else (0, s)

/-- `AL.omx.utils._nodes.partitionNameAndTrailingDigits`. -/
def partitionNameAndTrailingDigits (inputName : String) :
    Option String × Option Nat :=
  if inputName = "" then (none, none)
  else
    let chars := inputName.toList
    let digits := (chars.reverse.takeWhile (fun c => c.isDigit)).reverse
    if digits.length = 0 then (some inputName, none)
    else
      -- `int("".join(reversed(digits)))` over the collected digit run
      let digit := digits.foldl (fun acc c => acc * 10 + (c.toNat - '0'.toNat)) 0
      if ¬ (digits.length < chars.length) then (none, some digit)
      else (some (String.mk (chars.take (chars.length - digits.length))), some digit)

/-- The `nodeName[0].isalpha() or nodeName[0] == "_"` test. -/
def firstCharOk (s : String) : Bool :=
  s.front.isAlpha || s.front = '_'

/-- The `while i < _maximumAttempts` search of `closestAvailableNodeName`. -/
def availableNameLoop (w : World) (baseName : String) :
    Nat → Nat → Option String
  | 0, _ => none
  | fuel + 1, digit =>
      let newName := baseName ++ toString digit
      if ¬ w.objExists newName then some newName
      else availableNameLoop w baseName fuel (digit + 1)

/-- `AL.omx.utils._nodes.closestAvailableNodeName` against the world's
    `objExists`.  The source recurses unboundedly on `nodeName + "_1"` after
    exhausting its attempts; `recFuel` bounds that recursion (callers pass
    enough fuel that the bound is never the reason for a `none`). -/
def closestAvailableNodeName (w : World) :
    Nat → String → Option String
  | 0, _ => none
  | recFuel + 1, nodeName =>
      if nodeName = "" then none
      else if ¬ w.objExists nodeName then
        if firstCharOk nodeName then some nodeName else none
      else
        match partitionNameAndTrailingDigits nodeName with
        | (none, _) => none
        | (some baseName, digitOpt) =>
            let digit := match digitOpt with | none => 1 | some d => d + 1
            match availableNameLoop w baseName 10000 digit with
            | some nm => some nm
            | none => closestAvailableNodeName w recFuel (nodeName ++ "_1")

/-- The result contract of `XModifier.createDagNode`: the single `XNode`, or
    the `returnAllCreated` list in creation order. -/
inductive CreateDagResult where
  | single (node : Nat)
  | all (nodes : List Nat)
  deriving DecidableEq, Repr

/-- `XModifier.createDagNode` on the stack member at `i`: wrapper steps; the
    parent normalisation (a non-transform parent is replaced by its own first
    parent); the host create (TypeError for unresolvable types / non-transform
    parents); for a world-parented node an eager `doIt` followed by the
    transform-management step that selects the auto-created child and renames
    the auto transform; the optional rename; a final eager `doIt`; tracking;
    and the immediate-mode flush. -/
def Session.createDagNode (reg : TypeRegistry) (s : Session) (i : Nat)
    (typeName : String) (parent : Option Nat) (nodeName : String)
    (manageTransformIfNeeded : Bool := true) (returnAllCreated : Bool := false) :
    Except PyError CreateDagResult × Session :=
  if h : i < s.stack.length then
    let x := s.stack.get ⟨i, h⟩
    let journal' := x.journal ++
      [⟨"createDagNode",
        [("typeName", typeName),
         ("parent", match parent with | some p => toString p | none => "None"),
         ("nodeName", nodeName),
         ("manageTransformIfNeeded", toString manageTransformIfNeeded),
         ("returnAllCreated", toString returnAllCreated)]⟩]
    -- parent normalisation (`xparent.bestFn().parent(0)` when the supplied
    -- parent has no transform function set)
    let parent' : Option Nat :=
      match parent with
      | none => none
      | some p =>
          let pIsTransform :=
            match s.world.typeNameOf p with
            | some pt => reg.isTransformType pt
            | none => false
          if pIsTransform then some p
          else some ((s.world.parentsOf p).headD p)
    match x.mmod.createDagNode reg s.world typeName parent' with
    | .error e =>
        -- the wrapper already journaled and dirtied the modifier
        let x' : XModifier := { x with journal := journal', clean := false }
        (.error e, { s with stack := s.stack.set i x' })
    | .ok (mob0, mmod0, w0) =>
        let step :=
          match parent' with
          | some _ => (mmod0, w0, mob0, mob0, false)
          | none =>
              let (mmodA, wA) := mmod0.doIt w0
              let trn := mob0
              if manageTransformIfNeeded then
                match wA.childrenOf trn with
                | [] => (mmodA, wA, trn, trn, true)
                | c :: _ =>
                    match closestAvailableNodeName wA (wA.nodes.length + 1)
                        (typeName ++ "1") with
                    | some availableName =>
                        (mmodA.renameNode trn availableName, wA, c, trn, true)
                    | none =>
                        -- `renameNode(trn, None)`: the host rejects a null
                        -- name at the call (never reached under the claims'
                        -- hypotheses)
                        (mmodA, wA, c, trn, true)
              else (mmodA, wA, trn, trn, true)
        let (mmod1, w1, mob, trn, worldParented) := step
        let mmod2 := if nodeName ≠ "" then mmod1.renameNode mob nodeName else mmod1
        let (mmod3, w2) := mmod2.doIt w1
        let x' : XModifier :=
          { x with journal := journal', clean := false, mmod := mmod3 }
        let s' : Session :=
          { s with stack := s.stack.set i x', world := w2, log := s.log.trackNode mob }
        let result : CreateDagResult :=
          if returnAllCreated then
            .all ((if worldParented then [trn] else []) ++ [mob])
          else .single mob
        if x.immediate then (.ok result, (s'.xmodDoIt i false).2)
        else (.ok result, s')
  else (.error .typeError, s)

/-- All strict ancestors of a node along every DAG path, with fuel bounding
    the walk (`om2.MDagPath.getAllPathsTo` followed by popping to the world;
    host DAGs are acyclic so any fuel at least the node count is exact). -/
def World.ancestorsFuel (w : World) : Nat → Nat → List Nat
  | 0, _ => []
  | fuel + 1, n => (w.parentsOf n).flatMap (fun p => p :: w.ancestorsFuel fuel p)

def World.strictAncestors (w : World) (n : Nat) : List Nat :=
  w.ancestorsFuel w.nodes.length n

/-- `MFnDagNode.partialPathName`, abstracted to the node's current name. -/
def World.pathNameOf (w : World) (id : Nat) : String :=
  ((w.findNode id).map (fun n => n.name)).getD ""

/-- `XModifier.reparentNode` on the stack member at `i`: the
    `_modifierMethod` wrapper appends the journal entry and dirties the
    modifier before the method body runs, so its usage errors leave the entry
    and the dirty flag behind; the body performs the source's checks in
    order (non-DAG node, already world-parented, reparent to itself, non-DAG
    parent, already under the parent, reparent under a descendant) and only
    then records the host operation (or, with `absolute`, the `parent -a`
    command). -/
def Session.reparentNode (s : Session) (i : Nat) (node : Nat)
    (newParent : Option Nat) (absolute : Bool := false) :
    Session × Option PyError :=
  if h : i < s.stack.length then
    let x := s.stack.get ⟨i, h⟩
    let journal' := x.journal ++
      [⟨"reparentNode",
        [("node", toString node),
         ("newParent", match newParent with | some p => toString p | none => "None"),
         ("absolute", toString absolute)]⟩]
    let xDirty : XModifier := { x with journal := journal', clean := false }
    let sDirty := { s with stack := s.stack.set i xDirty }
    -- records the reparent (or the command) and runs the wrapper tail
    let record : Option Nat → Session × Option PyError := fun np =>
      let xRec : XModifier :=
        if ¬ absolute then { xDirty with mmod := xDirty.mmod.reparentNode node np }
        else
          let nodePath := s.world.pathNameOf node
          let newParentPath :=
            match np with
            | some p => if (s.world.findNode p).isSome then s.world.pathNameOf p else ""
            | none => ""
          let flag := if newParentPath = "" then "-w" else ""
          let cmdStr := "parent -a " ++ flag ++ " " ++ nodePath ++ " " ++ newParentPath
          { xDirty with mmod := xDirty.mmod.commandToExecute cmdStr }
      let sRec := { s with stack := s.stack.set i xRec }
      if x.immediate then ((sRec.xmodDoIt i false).2, none) else (sRec, none)
    if ¬ s.world.nodeIsDag node then (sDirty, some .typeError)
    else
      match newParent with
      | none =>
          if (s.world.parentsOf node).length = 0 then (sDirty, none)
          else record none
      | some p =>
          if node = p then (sDirty, some .runtimeError)
          else if ¬ s.world.nodeIsDag p then (sDirty, some .typeError)
          else if (s.world.parentsOf node).any (fun q => q = p) then (sDirty, none)
          else if (s.world.strictAncestors p).any (fun q => q = node) then
            (sDirty, some .runtimeError)
          else record (some p)
  else (s, none)

/-- The `for mod in _CURRENT_MODIFIER_LIST: mod.doIt()` loop: Python's
    `for` walks the live list by index, so a `doIt` that drains the stack
    ends the loop early; the fuel (the initial length, which the loop can
    only shrink) makes the recursion structural. -/
def flushLoop : Nat → Nat → Session → Session
  | 0, _, s => s
  | fuel + 1, i, s =>
      if i < s.stack.length then flushLoop fuel (i + 1) (s.xmodDoIt i false).2
      else s

/-- A protected `with omx.newModifierContext() as mod:` body for the context
    claims: a sequence of ambient edits issued through the yielded modifier
    (the last stack member), optionally followed by an exception. -/
def runContextBody (edits : List String) (s : Session) : Session :=
  edits.foldl (fun acc e => acc.commandToExecute (acc.stack.length - 1) e) s

/-- `_xmodifier.newModifierContext` run over a body: flush every pending
    modifier on entry, push and yield a fresh deferred modifier, and execute
    that modifier after the body.  The generator has no `try`/`finally`
    around its `yield`, so an exception thrown by the body propagates out of
    the generator and the trailing `mod.doIt()` never runs. -/
def newModifierContext (edits : List String) (raiseAfter : Option PyError)
    (s : Session) : Session × Option PyError :=
  let s1 := if s.stack.isEmpty then s else flushLoop s.stack.length 0 s
  let modIdx := s1.stack.length
  let s2 := { s1 with stack := s1.stack ++ [XModifier.new false] }
  let s3 := runContextBody edits s2
  match raiseAfter with
  | none => ((s3.xmodDoIt modIdx false).2, none)
  | some e => (s3, some e)

/-- Node identities an operation refers to (used by well-formedness
    hypotheses: recorded operations only mention already-allocated nodes). -/
def HostOp.idsOf : HostOp → List Nat
  | .createDGNode m _ => [m]
  | .createDagNode m _ p => m :: p.toList
  | .createDagPair t c _ => [t, c]
  | .renameNode m _ => [m]
  | .reparentNode m p => m :: p.toList
  | .command _ => []

/-- World sanity: every node identity and every recorded parent is below the
    allocation counter (true of every host-produced world). -/
def World.wfb (w : World) : Bool :=
  w.nodes.all (fun p =>
    decide (p.1 < w.nextId) && p.2.parents.all (fun q => decide (q < w.nextId)))

/-- Transaction sanity: every node an operation mentions is below `n`. -/
def MModifier.idsBelow (m : MModifier) (n : Nat) : Bool :=
  m.ops.all (fun op => op.idsOf.all (fun q => decide (q < n)))

/-- Does the operation rename some node to this name? -/
def HostOp.renamesTo : HostOp → String → Bool
  | .renameNode _ nm, n => nm = n
  | _, _ => false

/-- Attribute-level data of a plug: whether it is an array plug and which
    logical indices exist in its array (``getExistingArrayAttributeIndices``). -/
structure PlugData where
  isArray : Bool
  indices : List Nat
  deriving DecidableEq, Repr

/-- `om2.MPlug` as far as `plugIsValid`/`nextAvailableElementIndex` observe
    it: the null plug, a top-level plug, a compound child (holding its parent
    plug) or an array element (holding its owning array plug and logical
    index, `-1` being `kInvalidIndex`). -/
inductive MPlug where
  | null
  | top (data : PlugData)
  | child (parent : MPlug) (data : PlugData)
  | element (array : MPlug) (logicalIndex : Int)
  deriving DecidableEq, Repr

namespace MPlug

def isArray : MPlug → Bool
  | .top d => d.isArray
  | .child _ d => d.isArray
  | _ => false

def getExistingArrayAttributeIndices : MPlug → List Nat
  | .top d => d.indices
  | .child _ d => d.indices
  | _ => []

end MPlug

/-- `AL.omx.utils._plugs.plugIsValid` (branch for branch: null plugs are
    invalid; a compound child is as valid as its parent; a non-element is
    then valid; an element with the invalid index is not, otherwise it is as
    valid as its owning array plug). -/
def plugIsValid : MPlug → Bool
  | .null => false
  | .child parent _ => plugIsValid parent
  | .top _ => true
  | .element array logicalIndex =>
      if logicalIndex = -1 then false else plugIsValid array

/-- `AL.omx.utils._plugs.nextAvailableElementIndex`.  The source takes the
    head of `[i for i in range(idx + 1) if i not in indices]`, which is never
    empty because `idx` itself is not an existing index. -/
def nextAvailableElementIndex (plug : MPlug) : Int :=
  if (¬ plugIsValid plug) ∨ (¬ plug.isArray) then -1
  else
    let indices := plug.getExistingArrayAttributeIndices
    let idx := if indices.isEmpty then 0 else indices.foldl max 0 + 1
    (((List.range (idx + 1)).filter (fun j => ¬ j ∈ indices)).headD 0 : Nat)

/-- The name surface of one plug for `XPlug` child lookup: the long, short
    and alias partial names, plus compound/array flags. -/
structure PlugNode where
  longName : String
  shortName : String
  aliasName : String
  isArray : Bool
  isCompound : Bool
  deriving DecidableEq, Repr

/-- A plug with its compound children, as navigated by
    `XPlug._childPlugByName`. -/
inductive PlugTree where
  | node (data : PlugNode) (children : List PlugTree)

namespace PlugTree

def data : PlugTree → PlugNode
  | .node d _ => d

def children : PlugTree → List PlugTree
  | .node _ c => c

def isArray (t : PlugTree) : Bool := t.data.isArray

def isCompound (t : PlugTree) : Bool := t.data.isCompound

end PlugTree

/-- `name.split(".")[-1]` of the source's name comparison: the suffix after
    the last dot (the whole name when it has no dot). -/
def lastNameSegment (s : String) : String :=
  String.mk ((s.toList.reverse.takeWhile (fun c => c ≠ '.')).reverse)

/-- `XPlug._iterPossibleNamesOfPlug`: long name, short name, alias. -/
def possibleNamesOfPlug (t : PlugTree) : List String :=
  [t.data.longName, t.data.shortName, t.data.aliasName]

/-- The `key in (name, name.split(".")[-1])` test over every possible name. -/
def plugNameMatches (t : PlugTree) (key : String) : Bool :=
  (possibleNamesOfPlug t).any (fun nm => key = nm || key = lastNameSegment nm)

mutual

/-- `XPlug._childPlugByName`: scan the children in order; a name match wins;
    array children are skipped for recursion (array-of-compound needs index
    disambiguation first); compound children are searched recursively. -/
def childPlugByName : PlugTree → String → Option PlugTree
  | .node _ children, key => childPlugByNameIn children key

def childPlugByNameIn : List PlugTree → String → Option PlugTree
  | [], _ => none
  | c :: rest, key =>
      if plugNameMatches c key then some c
      else if c.isArray then childPlugByNameIn rest key
      else if c.isCompound then
        match childPlugByName c key with
        | some p => some p
        | none => childPlugByNameIn rest key
      else childPlugByNameIn rest key

end

/-- The key given to `XPlug.__getitem__`: an `int`, a `str`, or a value of
    any other type. -/
inductive GetItemKey where
  | intKey (i : Int)
  | strKey (s : String)
  | otherKey

/-- What `XPlug.__getitem__` hands back on success: an array element plug
    (`elementByLogicalIndex`) or a compound child plug. -/
inductive GetItemResult where
  | element (ofPlug : PlugTree) (logicalIndex : Int)
  | childPlug (c : PlugTree)

/-- `XPlug.__getitem__`: an `int` key demands an array plug (else
    `TypeError`); a `str` key demands a compound plug (else `TypeError`) and
    a child of that name (else `AttributeError`); any other key type is a
    `TypeError`. -/
def XPlug.getItem (t : PlugTree) (key : GetItemKey) :
    Except PyError GetItemResult :=
  match key with
  | .intKey i =>
      if t.isArray then .ok (.element t i)
      else .error .typeError
  | .strKey s =>
      if t.isCompound then
        match childPlugByName t s with
        | some xplug => .ok (.childPlug xplug)
        | none => .error .attributeError
      else .error .typeError
  | .otherKey => .error .typeError

/-- The state a deferred stack modifier reaches after the flush loop ran
    `doIt()` on it: transaction fully applied, journal cleared. -/
def flushedXModifier (x : XModifier) : XModifier :=
  { x with mmod := { x.mmod with applied := x.mmod.ops.length }, journal := [] }

/-- The C1 scenario run end to end through the session layer: Modifier M1
    records edits A and B, Modifier M2 records edit C, both are flushed
    together into one `AL_OMXCommand`, and the host then drives that
    command's `undoIt`; the value is the resulting host event trace. -/
def c1ScenarioTrace : List HEvent :=
  let s1 := (Session.empty.newModifier).2
  let s2 := (s1.commandToExecute 0 "A").commandToExecute 0 "B"
  let s3 := (s2.newModifier).2
  let s4 := s3.commandToExecute 1 "C"
  match executeModifiersWithUndo s4 with
  | (some c, s5) => (c.undoIt s5.world).2.trace
  | (none, _) => []

/-! ### General lemmas about the embedded model -/

theorem World.applyOp_trace (w : World) (op : HostOp) :
    (w.applyOp op).trace = w.trace ++ [.did op] := by
  cases op <;> rfl

theorem World.undoOp_trace (w : World) (op : HostOp) :
    (w.undoOp op).trace = w.trace ++ [.undid op] := by
  cases op <;> rfl

theorem World.applyOps_trace : ∀ (l : List HostOp) (w : World),
    (w.applyOps l).trace = w.trace ++ l.map HEvent.did
  | [], w => by simp [World.applyOps]
  | op :: l, w => by
      have h := World.applyOps_trace l (w.applyOp op)
      simp only [World.applyOps, List.foldl_cons] at h ⊢
      rw [h, World.applyOp_trace]
      simp

theorem World.undoOps_trace : ∀ (l : List HostOp) (w : World),
    (w.undoOps l).trace = w.trace ++ l.map HEvent.undid
  | [], w => by simp [World.undoOps]
  | op :: l, w => by
      have h := World.undoOps_trace l (w.undoOp op)
      simp only [World.undoOps, List.foldl_cons] at h ⊢
      rw [h, World.undoOp_trace]
      simp

theorem World.applyOps_append (w : World) (l1 l2 : List HostOp) :
    w.applyOps (l1 ++ l2) = (w.applyOps l1).applyOps l2 := by
  simp [World.applyOps, List.foldl_append]

/-! ### C9 helper lemmas -/

theorem le_foldl_max : ∀ (l : List Nat) (a : Nat), a ≤ l.foldl max a
  | [], _ => Nat.le_refl _
  | b :: l, a => Nat.le_trans (Nat.le_max_left a b) (le_foldl_max l (max a b))

theorem mem_le_foldl_max : ∀ (l : List Nat) (a x : Nat), x ∈ l → x ≤ l.foldl max a
  | [], _, _, hx => absurd hx (List.not_mem_nil _)
  | b :: l, a, x, hx => by
      rcases List.mem_cons.mp hx with rfl | hx
      · exact Nat.le_trans (Nat.le_max_right a x) (le_foldl_max l (max a x))
      · exact mem_le_foldl_max l (max a b) x hx

theorem find_range'_least (p : Nat → Bool) :
    ∀ (n s r : Nat), (List.range' s n).find? p = some r →
      p r = true ∧ ∀ j, s ≤ j → j < r → p j = false := by
  intro n
  induction n with
  | zero => intro s r h; simp at h
  | succ n ih =>
      intro s r h
      rw [List.range'_succ] at h
      cases hs : p s with
      | true =>
          rw [List.find?_cons_of_pos _ hs] at h
          cases h
          exact ⟨hs, fun j hj hjr => absurd (Nat.lt_of_le_of_lt hj hjr) (Nat.lt_irrefl _)⟩
      | false =>
          rw [List.find?_cons_of_neg _ (by simp [hs])] at h
          obtain ⟨hr, hall⟩ := ih (s + 1) r h
          refine ⟨hr, fun j hj hjr => ?_⟩
          rcases Nat.eq_or_lt_of_le hj with rfl | hlt
          · exact hs
          · exact hall j hlt hjr

theorem find_range_least (p : Nat → Bool) (m r : Nat)
    (h : (List.range m).find? p = some r) :
    p r = true ∧ ∀ j, j < r → p j = false := by
  rw [List.range_eq_range'] at h
  obtain ⟨hr, hall⟩ := find_range'_least p m 0 r h
  exact ⟨hr, fun j hjr => hall j (Nat.zero_le j) hjr⟩

/-- The head of the source's `[i for i in range(idx + 1) if i not in indices]`
    is the least natural number outside `S`. -/
theorem least_missing (S : List Nat) :
    ∃ r : Nat,
      ((List.range ((if S.isEmpty then 0 else S.foldl max 0 + 1) + 1)).filter
        (fun j => ¬ j ∈ S)).headD 0 = r ∧
      r ∉ S ∧ ∀ j : Nat, j < r → j ∈ S := by
  set idx := if S.isEmpty then 0 else S.foldl max 0 + 1 with hidx
  have hidxS : idx ∉ S := by
    by_cases hSe : S.isEmpty
    · rw [List.isEmpty_iff] at hSe
      rw [hSe]
      exact List.not_mem_nil idx
    · intro hmem
      have h1 := mem_le_foldl_max S 0 idx hmem
      have h2 : idx = S.foldl max 0 + 1 := by rw [hidx, if_neg hSe]
      omega
  have hmemL : idx ∈ (List.range (idx + 1)).filter (fun j => ¬ j ∈ S) := by
    refine List.mem_filter.mpr ⟨List.mem_range.mpr (Nat.lt_succ_self idx), ?_⟩
    exact decide_eq_true hidxS
  obtain ⟨r, hr⟩ :
      ∃ r, ((List.range (idx + 1)).filter (fun j => ¬ j ∈ S)).head? = some r := by
    cases hL : (List.range (idx + 1)).filter (fun j => ¬ j ∈ S) with
    | nil => rw [hL] at hmemL; exact absurd hmemL (List.not_mem_nil _)
    | cons a l => exact ⟨a, rfl⟩
  have hfind : (List.range (idx + 1)).find? (fun j => ¬ j ∈ S) = some r := by
    rw [← List.filter_head?]; exact hr
  obtain ⟨hpr, hleast⟩ := find_range_least _ (idx + 1) r hfind
  refine ⟨r, ?_, of_decide_eq_true hpr, fun j hj => ?_⟩
  · rw [List.headD_eq_head?_getD, hr]; rfl
  · have := hleast j hj
    by_contra hnot
    rw [decide_eq_true hnot] at this
    exact Bool.true_eq_false.mp this

/-- C9: for every plug that is a valid array plug,
    `nextAvailableElementIndex` returns the smallest non-negative logical
    index not contained in the plug's existing array attribute indices; for a
    plug that is invalid or not an array it returns `-1`. -/
theorem nextAvailableElementIndex_spec :
    (∀ plug : MPlug, (¬ plugIsValid plug) ∨ (¬ plug.isArray) →
        nextAvailableElementIndex plug = -1) ∧
    (∀ plug : MPlug, plugIsValid plug → plug.isArray →
        ∃ r : Nat, nextAvailableElementIndex plug = (r : Int) ∧
          r ∉ plug.getExistingArrayAttributeIndices ∧
          ∀ j : Nat, j < r → j ∈ plug.getExistingArrayAttributeIndices) := by
  constructor
  · intro plug h
    simp only [nextAvailableElementIndex]
    rw [if_pos h]
  · intro plug hvalid harr
    have hcond : ¬ ((¬ plugIsValid plug) ∨ (¬ plug.isArray)) := by
      simp [hvalid, harr]
    obtain ⟨r, hval, hnot, hall⟩ :=
      least_missing plug.getExistingArrayAttributeIndices
    refine ⟨r, ?_, hnot, hall⟩
    simp only [nextAvailableElementIndex]
    rw [if_neg hcond, hval]

/-- C9 witness: the theorem applied at the null plug and at a concrete valid
    array plug whose existing indices are 0, 1 and 3. -/
theorem nextAvailableElementIndex_spec_witness :
    nextAvailableElementIndex MPlug.null = -1 ∧
    (∃ r : Nat,
      nextAvailableElementIndex (MPlug.top ⟨true, [0, 1, 3]⟩) = (r : Int) ∧
      r ∉ (MPlug.top ⟨true, [0, 1, 3]⟩).getExistingArrayAttributeIndices ∧
      ∀ j : Nat, j < r →
        j ∈ (MPlug.top ⟨true, [0, 1, 3]⟩).getExistingArrayAttributeIndices) :=
  ⟨nextAvailableElementIndex_spec.1 MPlug.null (Or.inl (by decide)),
   nextAvailableElementIndex_spec.2 (MPlug.top ⟨true, [0, 1, 3]⟩)
     (by decide) (by decide)⟩

/-- C10: `XPlug.__getitem__` raises `AttributeError` exactly for a string key
    naming no child of a compound plug; it raises `TypeError` for an int key
    on a non-array plug, a string key on a non-compound plug, and a key of
    any other type; it returns an element plug for an int key on an array
    plug and a child plug for a string key naming a child of a compound. -/
theorem xplug_getItem_spec :
    (∀ (t : PlugTree) (i : Int), t.isArray = true →
        XPlug.getItem t (.intKey i) = .ok (.element t i)) ∧
    (∀ (t : PlugTree) (i : Int), t.isArray = false →
        XPlug.getItem t (.intKey i) = .error .typeError) ∧
    (∀ (t : PlugTree) (s : String), t.isCompound = false →
        XPlug.getItem t (.strKey s) = .error .typeError) ∧
    (∀ (t : PlugTree) (s : String), t.isCompound = true →
        childPlugByName t s = none →
        XPlug.getItem t (.strKey s) = .error .attributeError) ∧
    (∀ (t : PlugTree) (s : String) (c : PlugTree), t.isCompound = true →
        childPlugByName t s = some c →
        XPlug.getItem t (.strKey s) = .ok (.childPlug c)) ∧
    (∀ t : PlugTree, XPlug.getItem t .otherKey = .error .typeError) := by
  refine ⟨?_, ?_, ?_, ?_, ?_, ?_⟩
  · intro t i h; simp [XPlug.getItem, h]
  · intro t i h; simp [XPlug.getItem, h]
  · intro t s h; simp [XPlug.getItem, h]
  · intro t s h hnone; simp [XPlug.getItem, h, hnone]
  · intro t s c h hsome; simp [XPlug.getItem, h, hsome]
  · intro t; simp [XPlug.getItem]

/-- C10 witness: the theorem applied to a concrete compound plug (child
    lookup by the last segment of a long name, missing-child
    `AttributeError`, int-key `TypeError`) and a concrete array plug. -/
theorem xplug_getItem_spec_witness :
    (XPlug.getItem
        (.node ⟨"comp", "c", "", false, true⟩
          [.node ⟨"comp.childA", "ca", "", false, false⟩ []]) (.strKey "childA") =
      .ok (.childPlug (.node ⟨"comp.childA", "ca", "", false, false⟩ []))) ∧
    (XPlug.getItem
        (.node ⟨"comp", "c", "", false, true⟩
          [.node ⟨"comp.childA", "ca", "", false, false⟩ []]) (.strKey "nope") =
      .error .attributeError) ∧
    (XPlug.getItem
        (.node ⟨"comp", "c", "", false, true⟩
          [.node ⟨"comp.childA", "ca", "", false, false⟩ []]) (.intKey 0) =
      .error .typeError) ∧
    (XPlug.getItem (.node ⟨"arr", "a", "", true, false⟩ []) (.intKey 7) =
      .ok (.element (.node ⟨"arr", "a", "", true, false⟩ []) 7)) ∧
    (XPlug.getItem (.node ⟨"arr", "a", "", true, false⟩ []) .otherKey =
      .error .typeError) :=
  ⟨xplug_getItem_spec.2.2.2.2.1 _ "childA" _ rfl
      (by simp [childPlugByName, childPlugByNameIn]; decide),
   xplug_getItem_spec.2.2.2.1 _ "nope" rfl
      (by simp [childPlugByName, childPlugByNameIn]; decide),
   xplug_getItem_spec.2.1 _ 0 rfl,
   xplug_getItem_spec.1 _ 7 rfl,
   xplug_getItem_spec.2.2.2.2.2 _⟩

/-- C5 counterexample: outer scope tracking node 10, nested scope tracking
    node 20.  Ending the nested scope does return exactly its node, but the
    subsequent `queryAll` query returns only the outer node (not both, as the
    claim states), and ending the outer scope with `endAll` raises
    `IndexError` instead of returning the remaining nodes and deactivating
    the log. -/
theorem trackingLog_counterexample :
    (endTrackingNodes
        ((startTrackingNodes ((startTrackingNodes NodeCreationLog.empty).trackNode 10)).trackNode 20)
        false = .ok ([20], ⟨[[10]], true⟩)) ∧
    queryTrackedNodes ⟨[[10]], true⟩ true = [10] ∧
    queryTrackedNodes ⟨[[10]], true⟩ true ≠ [10, 20] ∧
    endTrackingNodes ⟨[[10]], true⟩ true = .error .indexError := by
  decide

/-- C5 amended: with an outer tracking level holding the nodes `outer` and a
    nested level holding `inner`, ending the nested scope returns exactly
    `inner` and pops it; a subsequent `queryAll` query returns only `outer`
    (popped entries are no longer tracked); and ending the outer scope with
    `endAll = true` raises `IndexError` — `clearLogEntry` first empties the
    log and then pops the empty list — so no nodes are returned and the
    inactive marking is never reached (this holds for every active log). -/
theorem trackingLog_amended :
    ∀ (outer inner : List Nat),
      endTrackingNodes ⟨[outer, inner], true⟩ false = .ok (inner, ⟨[outer], true⟩) ∧
      queryTrackedNodes ⟨[outer], true⟩ true = outer ∧
      (∀ l : NodeCreationLog, l.isActive = true →
        endTrackingNodes l true = .error .indexError) := by
  intro outer inner
  refine ⟨?_, ?_, ?_⟩
  · simp [endTrackingNodes, NodeCreationLog.trackedNodes,
      NodeCreationLog.clearLogEntry, Except.map]
  · simp [queryTrackedNodes, NodeCreationLog.trackedNodes]
  · intro l hact
    simp [endTrackingNodes, hact, NodeCreationLog.clearLogEntry, Except.map]

/-- C6 counterexample: a stack holding a clean modifier and a dirty one.
    The drain returns only one wrapper for the two stack members — the clean
    modifier is skipped, not returned — although it does empty the stack. -/
theorem getAndClearModifierStack_counterexample :
    (getAndClearModifierStack
        ⟨[XModifier.new false,
          ⟨false, ⟨[.command "X"], 0⟩, [⟨"commandToExecute", [("command", "X")]⟩], false⟩],
         World.empty, NodeCreationLog.empty⟩).1.length = 1 ∧
    ([XModifier.new false,
      (⟨false, ⟨[.command "X"], 0⟩, [⟨"commandToExecute", [("command", "X")]⟩], false⟩ : XModifier)].length = 2) ∧
    (getAndClearModifierStack
        ⟨[XModifier.new false,
          ⟨false, ⟨[.command "X"], 0⟩, [⟨"commandToExecute", [("command", "X")]⟩], false⟩],
         World.empty, NodeCreationLog.empty⟩).2.stack = [] := by
  decide

theorem drain_foldl_eq (l : List XModifier) : ∀ acc : List DoItModifierWrapper,
    l.foldl
      (fun acc xmod =>
        if xmod.isClean then acc else acc ++ [DoItModifierWrapper.mk xmod xmod.mmod])
      acc
      = acc ++ (l.filter (fun x => ¬ x.isClean)).map
          (fun x => DoItModifierWrapper.mk x x.mmod) := by
  induction l with
  | nil => intro acc; simp
  | cons x l ih =>
      intro acc
      by_cases hx : x.isClean
      · simp only [List.foldl_cons, if_pos hx]
        rw [ih]
        congr 1
        rw [List.filter_cons_of_neg (by simp [hx])]
      · simp only [List.foldl_cons, if_neg hx]
        rw [ih, List.filter_cons_of_pos (by simp [hx])]
        simp

/-- C6 amended: `getAndClearModifierStack` empties the process-wide stack
    and returns its non-clean members — in push order — wrapped for uniform
    apply/undo access; clean modifiers are dropped, not returned. -/
theorem getAndClearModifierStack_amended :
    ∀ s : Session,
      (getAndClearModifierStack s).1 =
        (s.stack.filter (fun x => ¬ x.isClean)).map
          (fun x => DoItModifierWrapper.mk x x.mmod) ∧
      (getAndClearModifierStack s).2 = { s with stack := [] } := by
  intro s
  exact ⟨drain_foldl_eq s.stack [], rfl⟩

/-- C3 counterexample: a fresh immediate modifier asked to reparent a DAG
    node under itself.  The usage error is raised and no host transaction
    step happens (no operation recorded, world untouched), but the modifier
    is NOT left clean: the method wrapper had already appended the journal
    entry and cleared the clean flag before the check ran. -/
theorem reparentNode_self_counterexample :
    (((⟨[XModifier.new true], ⟨1, [(0, ⟨"transform", "t", true, [], true⟩)], []⟩,
        NodeCreationLog.empty⟩ : Session).reparentNode 0 0 (some 0) false).2 =
      some .runtimeError) ∧
    ((⟨[XModifier.new true], ⟨1, [(0, ⟨"transform", "t", true, [], true⟩)], []⟩,
        NodeCreationLog.empty⟩ : Session).reparentNode 0 0 (some 0) false).1.stack.map
      (fun x => x.isClean) = [false] ∧
    ((⟨[XModifier.new true], ⟨1, [(0, ⟨"transform", "t", true, [], true⟩)], []⟩,
        NodeCreationLog.empty⟩ : Session).reparentNode 0 0 (some 0) false).1.stack.map
      (fun x => x.journal.length) = [1] ∧
    ((⟨[XModifier.new true], ⟨1, [(0, ⟨"transform", "t", true, [], true⟩)], []⟩,
        NodeCreationLog.empty⟩ : Session).reparentNode 0 0 (some 0) false).1.stack.map
      (fun x => x.mmod.ops) = [[]] ∧
    ((⟨[XModifier.new true], ⟨1, [(0, ⟨"transform", "t", true, [], true⟩)], []⟩,
        NodeCreationLog.empty⟩ : Session).reparentNode 0 0 (some 0) false).1.world =
      ⟨1, [(0, ⟨"transform", "t", true, [], true⟩)], []⟩ := by
  decide

/-- C3 amended: reparenting any DAG node to itself raises the usage error
    (`RuntimeError`) before any host transaction step — no operation is
    recorded on the owned transaction and the world (including its trace) is
    untouched — but the Modifier is NOT left clean: the journal entry was
    appended by the method wrapper before the check, and `isClean()` returns
    `False` afterwards. -/
theorem reparentNode_self_amended :
    ∀ (s : Session) (i node : Nat) (absolute : Bool) (h : i < s.stack.length),
      s.world.nodeIsDag node = true →
      s.reparentNode i node (some node) absolute =
        ({ s with
            stack := s.stack.set i
              { s.stack.get ⟨i, h⟩ with
                  journal := (s.stack.get ⟨i, h⟩).journal ++
                    [⟨"reparentNode",
                      [("node", toString node), ("newParent", toString node),
                       ("absolute", toString absolute)]⟩]
                  clean := false } },
         some .runtimeError) := by
  intro s i node absolute h hdag
  simp only [Session.reparentNode, dif_pos h]
  rw [if_neg (by simp [hdag])]
  simp

/-- C3 witness: the amended theorem applied at a concrete session holding a
    deferred modifier and a world with one DAG node. -/
theorem reparentNode_self_amended_witness :
    ((⟨[XModifier.new false], ⟨1, [(0, ⟨"transform", "t", true, [], true⟩)], []⟩,
        NodeCreationLog.empty⟩ : Session).reparentNode 0 0 (some 0) false).2 =
      some .runtimeError := by
  rw [reparentNode_self_amended _ 0 0 false (by decide) (by decide)]

/-- C7 counterexample: an immediate modifier whose journal holds one entry
    (left behind by a failed self-reparent) loses that journal on
    `doIt(keepJournal=True)` — the immediate-mode reset runs after the
    `finally` block and clears the journal regardless. -/
theorem doIt_keepJournal_counterexample :
    ((((⟨[XModifier.new true], ⟨1, [(0, ⟨"transform", "t", true, [], true⟩)], []⟩,
        NodeCreationLog.empty⟩ : Session).reparentNode 0 0 (some 0) false).1.stack.map
        (fun x => x.journal.length)) = [1]) ∧
    (((((⟨[XModifier.new true], ⟨1, [(0, ⟨"transform", "t", true, [], true⟩)], []⟩,
        NodeCreationLog.empty⟩ : Session).reparentNode 0 0 (some 0) false).1).xmodDoIt
        0 true).1.journal = []) := by
  decide

/-- C7 amended: in deferred mode, `doIt(keepJournal=True)` leaves the journal
    unchanged and `doIt(keepJournal=False)` clears it; in immediate mode,
    `doIt` resets the modifier after routing through the command — the
    journal is cleared and the modifier marked clean regardless of
    `keepJournal`. -/
theorem doIt_keepJournal_amended :
    ∀ (s : Session) (i : Nat) (h : i < s.stack.length),
      ((s.stack.get ⟨i, h⟩).immediate = false →
        (s.xmodDoIt i true).1.journal = (s.stack.get ⟨i, h⟩).journal ∧
        (s.xmodDoIt i false).1.journal = []) ∧
      ((s.stack.get ⟨i, h⟩).immediate = true →
        ∀ keepJournal : Bool,
          (s.xmodDoIt i keepJournal).1.journal = [] ∧
          (s.xmodDoIt i keepJournal).1.clean = true) := by
  intro s i h
  constructor
  · intro himm
    rw [List.get_eq_getElem] at himm ⊢
    constructor <;> simp [Session.xmodDoIt, dif_pos h, himm]
  · intro himm keepJournal
    rw [List.get_eq_getElem] at himm
    constructor <;> simp [Session.xmodDoIt, dif_pos h, himm]

/-- C7 witness: the amended theorem applied at a concrete deferred modifier
    with a one-entry journal and at a concrete immediate modifier. -/
theorem doIt_keepJournal_amended_witness :
    (((⟨[⟨false, ⟨[.command "X"], 0⟩, [⟨"m", []⟩], false⟩], World.empty,
        NodeCreationLog.empty⟩ : Session).xmodDoIt 0 true).1.journal = [⟨"m", []⟩]) ∧
    (((⟨[⟨false, ⟨[.command "X"], 0⟩, [⟨"m", []⟩], false⟩], World.empty,
        NodeCreationLog.empty⟩ : Session).xmodDoIt 0 false).1.journal = []) ∧
    (((⟨[⟨true, ⟨[.command "X"], 0⟩, [⟨"m", []⟩], false⟩], World.empty,
        NodeCreationLog.empty⟩ : Session).xmodDoIt 0 true).1.journal = []) ∧
    (((⟨[⟨true, ⟨[.command "X"], 0⟩, [⟨"m", []⟩], false⟩], World.empty,
        NodeCreationLog.empty⟩ : Session).xmodDoIt 0 true).1.clean = true) :=
  ⟨((doIt_keepJournal_amended _ 0 (by decide)).1 (by decide)).1,
   ((doIt_keepJournal_amended _ 0 (by decide)).1 (by decide)).2,
   ((doIt_keepJournal_amended _ 0 (by decide)).2 (by decide) true).1,
   ((doIt_keepJournal_amended _ 0 (by decide)).2 (by decide) true).2⟩


/-- Unfolding lemma: `doIt` on a deferred stack member applies the pending
    operations directly and honours `keepJournal`. -/
theorem xmodDoIt_deferred_eq (s : Session) (i : Nat) (h : i < s.stack.length)
    (keep : Bool) (himm : (s.stack.get ⟨i, h⟩).immediate = false) :
    s.xmodDoIt i keep =
      ({ s.stack.get ⟨i, h⟩ with
           mmod := { (s.stack.get ⟨i, h⟩).mmod with
                       applied := (s.stack.get ⟨i, h⟩).mmod.ops.length },
           journal := if keep then (s.stack.get ⟨i, h⟩).journal else [] },
       { s with
           stack := (s.stack.set i
             { s.stack.get ⟨i, h⟩ with
                 mmod := { (s.stack.get ⟨i, h⟩).mmod with
                             applied := (s.stack.get ⟨i, h⟩).mmod.ops.length },
                 journal := if keep then (s.stack.get ⟨i, h⟩).journal else [] }),
           world := s.world.applyOps (s.stack.get ⟨i, h⟩).mmod.pending }) := by
  rw [List.get_eq_getElem] at himm ⊢
  simp [Session.xmodDoIt, dif_pos h, himm, MModifier.doIt]

/-- Unfolding lemma: `commandToExecute` on a deferred stack member journals,
    dirties and records, with no host application. -/
theorem commandToExecute_deferred_eq (s : Session) (i : Nat)
    (h : i < s.stack.length) (cmd : String)
    (himm : (s.stack.get ⟨i, h⟩).immediate = false) :
    s.commandToExecute i cmd =
      { s with stack := (s.stack.set i
          { s.stack.get ⟨i, h⟩ with
              journal := (s.stack.get ⟨i, h⟩).journal ++
                [⟨"commandToExecute", [("command", cmd)]⟩],
              clean := false,
              mmod := (s.stack.get ⟨i, h⟩).mmod.commandToExecute cmd }) } := by
  rw [List.get_eq_getElem] at himm ⊢
  simp [Session.commandToExecute, dif_pos h, himm]

theorem pending_append_ops (m : MModifier) (l : List HostOp)
    (hm : m.applied ≤ m.ops.length) :
    ({ m with ops := m.ops ++ l } : MModifier).pending = m.pending ++ l := by
  simp [MModifier.pending, List.drop_append_eq_append_drop,
    Nat.sub_eq_zero_of_le hm]

theorem xcommand_doIt_fold_trace :
    ∀ (ms : List DoItModifierWrapper) (acc : List DoItModifierWrapper) (w : World),
      (ms.foldl
        (fun acc d =>
          let (d', w') := d.doIt acc.2
          (acc.1 ++ [d'], w'))
        (acc, w)).2.trace =
      w.trace ++ (ms.map (fun d => d.mmod.pending.map HEvent.did)).flatten
  | [], acc, w => by simp
  | d :: ms, acc, w => by
      have ih := xcommand_doIt_fold_trace ms (acc ++ [(d.doIt w).1]) (d.doIt w).2
      simp only [List.foldl_cons] at ih ⊢
      rw [ih]
      have : (d.doIt w).2.trace = w.trace ++ d.mmod.pending.map HEvent.did := by
        simp [DoItModifierWrapper.doIt, MModifier.doIt, World.applyOps_trace]
      rw [this]
      simp

theorem xcommand_undoIt_fold_trace :
    ∀ (ms : List DoItModifierWrapper) (acc : List DoItModifierWrapper) (w : World),
      (ms.foldl
        (fun acc d =>
          let (d', w') := d.undoIt acc.2
          (acc.1 ++ [d'], w'))
        (acc, w)).2.trace =
      w.trace ++
        (ms.map (fun d =>
          (d.mmod.ops.take d.mmod.applied).reverse.map HEvent.undid)).flatten
  | [], acc, w => by simp
  | d :: ms, acc, w => by
      have ih := xcommand_undoIt_fold_trace ms (acc ++ [(d.undoIt w).1]) (d.undoIt w).2
      simp only [List.foldl_cons] at ih ⊢
      rw [ih]
      have : (d.undoIt w).2.trace =
          w.trace ++ (d.mmod.ops.take d.mmod.applied).reverse.map HEvent.undid := by
        simp [DoItModifierWrapper.undoIt, MModifier.undoIt, World.undoOps_trace]
      rw [this]
      simp

/-- C1: the Command Bridge applies its drained runnables in stack order
    (oldest first) on `doIt`, `redoIt` is identical to `doIt`, and `undoIt`
    reverses every runnable in reverse order (newest first); in particular,
    for Modifiers M1 (edits A, B) and M2 (edit C) pushed in that order and
    flushed together, invoking undo on the resulting composite command
    reverses in order C, B, A. -/
theorem xcommand_lifo_ordering :
    (∀ (c : XCommand) (w : World),
        (c.doIt w).2.trace =
          w.trace ++
            (c.modifiers.map (fun d => d.mmod.pending.map HEvent.did)).flatten) ∧
    (∀ (c : XCommand) (w : World), c.redoIt w = c.doIt w) ∧
    (∀ (c : XCommand) (w : World),
        (c.undoIt w).2.trace =
          w.trace ++
            (c.modifiers.reverse.map (fun d =>
              (d.mmod.ops.take d.mmod.applied).reverse.map HEvent.undid)).flatten) ∧
    c1ScenarioTrace =
      [.did (.command "A"), .did (.command "B"), .did (.command "C"),
       .undid (.command "C"), .undid (.command "B"), .undid (.command "A")] := by
  refine ⟨?_, ?_, ?_, ?_⟩
  · intro c w
    exact xcommand_doIt_fold_trace c.modifiers [] w
  · intro c w
    rfl
  · intro c w
    exact xcommand_undoIt_fold_trace c.modifiers.reverse [] w
  · decide

theorem take_set_succ (l : List α) (i : Nat) (v : α) (h : i < l.length) :
    (l.set i v).take (i + 1) = l.take i ++ [v] := by
  rw [List.set_eq_take_cons_drop v h, List.take_append_eq_append_take,
    List.take_take]
  have h1 : min (i + 1) i = i := by omega
  have h2 : (l.take i).length = i := by rw [List.length_take]; omega
  rw [h1, h2]
  simp

theorem drop_set_succ (l : List α) (i : Nat) (v : α) :
    (l.set i v).drop (i + 1) = l.drop (i + 1) := by
  simp [List.drop_set]

/-- The entry loop of `newModifierContext` over a stack of deferred
    modifiers: every stack member is flushed in order; the loop's index walk
    over the live list is exact because deferred `doIt` never changes the
    stack length. -/
theorem flushLoop_deferred :
    ∀ (k i : Nat) (s : Session),
      (∀ x ∈ s.stack, x.immediate = false) →
      s.stack.length ≤ i + k →
      flushLoop k i s =
        ⟨s.stack.take i ++ (s.stack.drop i).map flushedXModifier,
         s.world.applyOps ((s.stack.drop i).map (fun x => x.mmod.pending)).flatten,
         s.log⟩ := by
  intro k
  induction k with
  | zero =>
      intro i s _ hlen
      rw [Nat.add_zero] at hlen
      cases s with
      | mk stack world log =>
          simp only [flushLoop]
          congr 1
          · rw [List.drop_eq_nil_of_le hlen, List.take_of_length_le hlen]
            simp
          · rw [List.drop_eq_nil_of_le hlen]
            simp [World.applyOps]
  | succ k ih =>
      intro i s hdef hlen
      by_cases h : i < s.stack.length
      · simp only [flushLoop, if_pos h]
        have himm : (s.stack.get ⟨i, h⟩).immediate = false :=
          hdef _ (List.get_mem s.stack i h)
        rw [xmodDoIt_deferred_eq s i h false himm]
        rw [ih (i + 1) _ ?hdef' ?hlen']
        case hdef' =>
          intro y hy
          rcases List.mem_or_eq_of_mem_set hy with hy' | hyeq
          · exact hdef y hy'
          · subst hyeq
            exact himm
        case hlen' =>
          simp only [List.length_set]
          omega
        have hdropi : s.stack.drop i = s.stack.get ⟨i, h⟩ :: s.stack.drop (i + 1) := by
          rw [List.get_eq_getElem]
          exact List.drop_eq_getElem_cons h
        congr 1
        · rw [drop_set_succ, take_set_succ _ _ _ h, hdropi]
          simp only [List.map_cons, List.append_assoc, List.singleton_append]
          rfl
        · rw [drop_set_succ, hdropi]
          simp only [List.map_cons, List.flatten_cons]
          rw [World.applyOps_append]
      · simp only [flushLoop, if_neg h]
        have hlen2 : s.stack.length ≤ i := by omega
        cases s with
        | mk stack world log =>
            congr 1
            · rw [List.drop_eq_nil_of_le hlen2, List.take_of_length_le hlen2]
              simp
            · rw [List.drop_eq_nil_of_le hlen2]
              simp [World.applyOps]

theorem commandToExecute_append_last (base : List XModifier) (x : XModifier)
    (w : World) (lg : NodeCreationLog) (cmd : String)
    (himm : x.immediate = false) :
    Session.commandToExecute ⟨base ++ [x], w, lg⟩ ((base ++ [x]).length - 1) cmd =
      ⟨base ++ [{ x with
          journal := x.journal ++ [⟨"commandToExecute", [("command", cmd)]⟩],
          clean := false,
          mmod := x.mmod.commandToExecute cmd }], w, lg⟩ := by
  have hlen : (base ++ [x]).length - 1 = base.length := by simp
  have hlt : base.length < (base ++ [x]).length := by simp
  rw [hlen]
  have hget : (⟨base ++ [x], w, lg⟩ : Session).stack.get ⟨base.length, hlt⟩ = x := by
    rw [List.get_eq_getElem]
    rw [List.getElem_append_right (Nat.le_refl _)]
    simp
  rw [commandToExecute_deferred_eq _ base.length hlt cmd (by rw [hget]; exact himm)]
  rw [hget]
  congr 1
  rw [List.set_append_right _ _ (Nat.le_refl _)]
  simp

theorem runContextBody_cons (e : String) (edits : List String) (s : Session) :
    runContextBody (e :: edits) s =
      runContextBody edits (s.commandToExecute (s.stack.length - 1) e) := rfl

/-- Running a context body of ambient edits against the yielded (last,
    deferred) modifier records the commands and journals them without
    touching the host world. -/
theorem runContextBody_spec :
    ∀ (edits : List String) (base : List XModifier) (w : World)
      (lg : NodeCreationLog) (x : XModifier),
      x.immediate = false →
      runContextBody edits ⟨base ++ [x], w, lg⟩ =
        ⟨base ++ [{ x with
            mmod := { x.mmod with ops := x.mmod.ops ++ edits.map HostOp.command },
            journal := x.journal ++
              edits.map (fun c => ⟨"commandToExecute", [("command", c)]⟩),
            clean := x.clean && edits.isEmpty }], w, lg⟩
  | [], base, w, lg, x, himm => by
      simp [runContextBody]
  | e :: edits, base, w, lg, x, himm => by
      rw [runContextBody_cons]
      rw [show (⟨base ++ [x], w, lg⟩ : Session).stack.length - 1 =
          (base ++ [x]).length - 1 from rfl]
      rw [commandToExecute_append_last base x w lg e himm]
      rw [runContextBody_spec edits base w lg
        { x with
            journal := x.journal ++ [⟨"commandToExecute", [("command", e)]⟩],
            clean := false,
            mmod := x.mmod.commandToExecute e } himm]
      simp [MModifier.commandToExecute]

theorem entry_flush_eq (s : Session)
    (hd : ∀ x ∈ s.stack, x.immediate = false) :
    (if s.stack.isEmpty then s else flushLoop s.stack.length 0 s) =
      ⟨s.stack.map flushedXModifier,
       s.world.applyOps ((s.stack.map (fun x => x.mmod.pending)).flatten),
       s.log⟩ := by
  by_cases he : s.stack.isEmpty
  · rw [if_pos he]
    rw [List.isEmpty_iff] at he
    cases s with
    | mk stack world log =>
        simp only at he
        subst he
        simp [World.applyOps]
  · rw [if_neg he]
    have := flushLoop_deferred s.stack.length 0 s hd (by omega)
    simpa using this

theorem xmodDoIt_append_last (base : List XModifier) (x : XModifier)
    (w : World) (lg : NodeCreationLog) (keep : Bool) (himm : x.immediate = false) :
    Session.xmodDoIt ⟨base ++ [x], w, lg⟩ base.length keep =
      ({ x with mmod := { x.mmod with applied := x.mmod.ops.length },
                journal := if keep then x.journal else [] },
       ⟨base ++ [({ x with
                     mmod := { x.mmod with applied := x.mmod.ops.length }
                     journal := if keep then x.journal else [] } : XModifier)],
        w.applyOps x.mmod.pending, lg⟩) := by
  have hlt : base.length < (base ++ [x]).length := by simp
  have hget : (⟨base ++ [x], w, lg⟩ : Session).stack.get ⟨base.length, hlt⟩ = x := by
    rw [List.get_eq_getElem, List.getElem_append_right (Nat.le_refl _)]
    simp
  rw [xmodDoIt_deferred_eq _ base.length hlt keep (by rw [hget]; exact himm)]
  rw [hget]
  congr 1
  congr 1
  rw [List.set_append_right _ _ (Nat.le_refl _)]
  simp

/-- C2 counterexample: a context body that performs one edit and then
    raises.  The exception propagates (as the claim says), but the yielded
    Modifier's `doIt()` is NOT executed: the host trace is empty and the
    modifier is still sitting in the stack with its recorded, unapplied
    edit — `newModifierContext` has no `finally` around its `yield`. -/
theorem newModifierContext_error_counterexample :
    (newModifierContext ["A"] (some (.userError 0)) Session.empty).2 =
      some (.userError 0) ∧
    (newModifierContext ["A"] (some (.userError 0)) Session.empty).1.world.trace =
      [] ∧
    (newModifierContext ["A"] (some (.userError 0)) Session.empty).1.stack.map
      (fun x => x.mmod.pending) = [[.command "A"]] := by
  decide

/-- C2 amended: over a stack of deferred pending Modifiers,
    `newModifierContext` flushes every pending Modifier on entry (their
    pending operations are applied, oldest first) and pushes a fresh
    deferred Modifier; when the body completes normally the new Modifier's
    `doIt()` runs on exit, applying the body's edits; when the body raises,
    the exception propagates, `doIt()` is NOT executed, and the new Modifier
    remains in the stack with its recorded edits pending. -/
theorem newModifierContext_amended :
    ∀ (edits : List String) (e : PyError) (s : Session),
      (∀ x ∈ s.stack, x.immediate = false) →
      ((newModifierContext edits none s).2 = none ∧
       (newModifierContext edits none s).1.world.trace =
         s.world.trace ++
           ((s.stack.map (fun x => x.mmod.pending)).flatten.map HEvent.did) ++
           (edits.map (fun c => HEvent.did (.command c)))) ∧
      ((newModifierContext edits (some e) s).2 = some e ∧
       (newModifierContext edits (some e) s).1.world.trace =
         s.world.trace ++
           ((s.stack.map (fun x => x.mmod.pending)).flatten.map HEvent.did) ∧
       (newModifierContext edits (some e) s).1.stack.length = s.stack.length + 1 ∧
       ((newModifierContext edits (some e) s).1.stack.getLast?).map
         (fun x => x.mmod.pending) = some (edits.map HostOp.command)) := by
  intro edits e s hd
  constructor
  · simp only [newModifierContext]
    rw [entry_flush_eq s hd]
    rw [show ((⟨s.stack.map flushedXModifier,
        s.world.applyOps ((s.stack.map (fun x => x.mmod.pending)).flatten),
        s.log⟩ : Session).stack ++ [XModifier.new false]) =
      (s.stack.map flushedXModifier) ++ [XModifier.new false] from rfl]
    rw [runContextBody_spec edits _ _ _ _ rfl]
    dsimp only
    rw [List.length_map]
    rw [show s.stack.length = (s.stack.map flushedXModifier).length from
      (List.length_map _ _).symm]
    rw [xmodDoIt_append_last _ _ _ _ false rfl]
    refine ⟨trivial, ?_⟩
    simp [XModifier.new, MModifier.new, MModifier.pending, World.applyOps_trace,
      List.map_map, Function.comp]
  · simp only [newModifierContext]
    rw [entry_flush_eq s hd]
    rw [show ((⟨s.stack.map flushedXModifier,
        s.world.applyOps ((s.stack.map (fun x => x.mmod.pending)).flatten),
        s.log⟩ : Session).stack ++ [XModifier.new false]) =
      (s.stack.map flushedXModifier) ++ [XModifier.new false] from rfl]
    rw [runContextBody_spec edits _ _ _ _ rfl]
    refine ⟨trivial, ?_, ?_, ?_⟩
    · simp [World.applyOps_trace]
    · simp
    · rw [show ((⟨(s.stack.map flushedXModifier) ++ [({ XModifier.new false with
          mmod := { (XModifier.new false).mmod with
                      ops := (XModifier.new false).mmod.ops ++ edits.map HostOp.command }
          journal := (XModifier.new false).journal ++
            edits.map (fun c => ⟨"commandToExecute", [("command", c)]⟩)
          clean := (XModifier.new false).clean && edits.isEmpty } : XModifier)],
          s.world.applyOps ((s.stack.map (fun x => x.mmod.pending)).flatten),
          s.log⟩ : Session) : Session).stack =
        (s.stack.map flushedXModifier) ++ [({ XModifier.new false with
          mmod := { (XModifier.new false).mmod with
                      ops := (XModifier.new false).mmod.ops ++ edits.map HostOp.command }
          journal := (XModifier.new false).journal ++
            edits.map (fun c => ⟨"commandToExecute", [("command", c)]⟩)
          clean := (XModifier.new false).clean && edits.isEmpty } : XModifier)]
        from rfl]
      rw [List.getLast?_concat]
      simp [XModifier.new, MModifier.new, MModifier.pending]

/-- C2 witness: the amended theorem applied at a session holding one
    deferred Modifier with a pending command, a one-edit body, and the error
    `userError 7`. -/
theorem newModifierContext_amended_witness :
    ((newModifierContext ["A"] none
        ⟨[⟨false, ⟨[.command "P"], 0⟩, [], false⟩], World.empty,
          NodeCreationLog.empty⟩).2 = none ∧
     (newModifierContext ["A"] none
        ⟨[⟨false, ⟨[.command "P"], 0⟩, [], false⟩], World.empty,
          NodeCreationLog.empty⟩).1.world.trace =
       [.did (.command "P"), .did (.command "A")]) ∧
    ((newModifierContext ["A"] (some (.userError 7))
        ⟨[⟨false, ⟨[.command "P"], 0⟩, [], false⟩], World.empty,
          NodeCreationLog.empty⟩).2 = some (.userError 7) ∧
     (newModifierContext ["A"] (some (.userError 7))
        ⟨[⟨false, ⟨[.command "P"], 0⟩, [], false⟩], World.empty,
          NodeCreationLog.empty⟩).1.world.trace = [.did (.command "P")] ∧
     (newModifierContext ["A"] (some (.userError 7))
        ⟨[⟨false, ⟨[.command "P"], 0⟩, [], false⟩], World.empty,
          NodeCreationLog.empty⟩).1.stack.length = 2 ∧
     ((newModifierContext ["A"] (some (.userError 7))
        ⟨[⟨false, ⟨[.command "P"], 0⟩, [], false⟩], World.empty,
          NodeCreationLog.empty⟩).1.stack.getLast?).map
       (fun x => x.mmod.pending) = some [.command "A"]) := by
  obtain ⟨h1, h2⟩ :=
    newModifierContext_amended ["A"] (.userError 7)
      ⟨[⟨false, ⟨[.command "P"], 0⟩, [], false⟩], World.empty,
        NodeCreationLog.empty⟩ (by decide)
  exact ⟨h1, h2⟩

/-! ### C8: the createDagNode transform-management contract -/

theorem map_id_of (f : α → α) : ∀ (l : List α), (∀ a ∈ l, f a = a) → l.map f = l
  | [], _ => rfl
  | a :: l, h => by
      rw [List.map_cons, h a (List.mem_cons_self a l),
        map_id_of f l (fun b hb => h b (List.mem_cons_of_mem a hb))]

theorem find_key_map (g : (Nat × WNode) → (Nat × WNode))
    (hg : ∀ p, (g p).1 = p.1) (i : Nat) :
    ∀ l : List (Nat × WNode),
      (l.map g).find? (fun p => p.1 = i) = (l.find? (fun p => p.1 = i)).map g
  | [] => rfl
  | p :: l => by
      rw [List.map_cons]
      by_cases hp : p.1 = i
      · rw [List.find?_cons_of_pos _ (by simpa [hg] using hp),
          List.find?_cons_of_pos _ (by simpa using hp)]
        rfl
      · rw [List.find?_cons_of_neg _ (by simpa [hg] using hp),
          List.find?_cons_of_neg _ (by simpa using hp)]
        exact find_key_map g hg i l

theorem typeNameOf_nodes_map (ns : List (Nat × WNode)) (tr : List HEvent)
    (nid : Nat) (g : (Nat × WNode) → (Nat × WNode))
    (hg : ∀ p, (g p).1 = p.1) (hgt : ∀ p, (g p).2.typeName = p.2.typeName)
    (id : Nat) :
    World.typeNameOf ⟨nid, ns.map g, tr⟩ id = World.typeNameOf ⟨nid, ns, tr⟩ id := by
  simp only [World.typeNameOf, World.findNode]
  rw [find_key_map g hg id ns]
  cases ns.find? (fun p => p.1 = id) with
  | none => rfl
  | some p => simp [hgt]

theorem typeNameOf_setAdded (nid : Nat) (ns : List (Nat × WNode))
    (tr : List HEvent) (j : Nat) (b : Bool) (id : Nat) :
    World.typeNameOf ⟨nid, World.setAdded ns j b, tr⟩ id =
      World.typeNameOf ⟨nid, ns, tr⟩ id := by
  rw [show World.setAdded ns j b =
    ns.map (fun p => if p.1 = j then (p.1, { p.2 with added := b }) else p) from rfl]
  exact typeNameOf_nodes_map ns tr nid _
    (by intro p; by_cases h : p.1 = j <;> simp [h])
    (by intro p; by_cases h : p.1 = j <;> simp [h]) id

theorem typeNameOf_setName (nid : Nat) (ns : List (Nat × WNode))
    (tr : List HEvent) (j : Nat) (nm : String) (id : Nat) :
    World.typeNameOf ⟨nid, World.setName ns j nm, tr⟩ id =
      World.typeNameOf ⟨nid, ns, tr⟩ id := by
  rw [show World.setName ns j nm =
    ns.map (fun p => if p.1 = j then (p.1, { p.2 with name := nm }) else p) from rfl]
  exact typeNameOf_nodes_map ns tr nid _
    (by intro p; by_cases h : p.1 = j <;> simp [h])
    (by intro p; by_cases h : p.1 = j <;> simp [h]) id

theorem typeNameOf_setParents (nid : Nat) (ns : List (Nat × WNode))
    (tr : List HEvent) (j : Nat) (ps : List Nat) (id : Nat) :
    World.typeNameOf ⟨nid, World.setParents ns j ps, tr⟩ id =
      World.typeNameOf ⟨nid, ns, tr⟩ id := by
  rw [show World.setParents ns j ps =
    ns.map (fun p => if p.1 = j then (p.1, { p.2 with parents := ps }) else p) from rfl]
  exact typeNameOf_nodes_map ns tr nid _
    (by intro p; by_cases h : p.1 = j <;> simp [h])
    (by intro p; by_cases h : p.1 = j <;> simp [h]) id

theorem typeNameOf_applyOp (w : World) (op : HostOp) (id : Nat) :
    (w.applyOp op).typeNameOf id = w.typeNameOf id := by
  cases w with
  | mk nid ns tr =>
      cases op with
      | createDGNode mob t => exact typeNameOf_setAdded nid ns _ mob true id
      | createDagNode mob t par => exact typeNameOf_setAdded nid ns _ mob true id
      | createDagPair trn child t =>
          exact (typeNameOf_setAdded nid _ _ child true id).trans
            (typeNameOf_setAdded nid ns _ trn true id)
      | renameNode mob nm => exact typeNameOf_setName nid ns _ mob nm id
      | reparentNode mob par => exact typeNameOf_setParents nid ns _ mob _ id
      | command c => rfl

theorem typeNameOf_applyOps : ∀ (l : List HostOp) (w : World) (id : Nat),
    (w.applyOps l).typeNameOf id = w.typeNameOf id
  | [], _, _ => rfl
  | op :: l, w, id => by
      show ((w.applyOp op).applyOps l).typeNameOf id = _
      rw [typeNameOf_applyOps l (w.applyOp op) id, typeNameOf_applyOp]

theorem typeNameOf_xcommand_fold :
    ∀ (ms : List DoItModifierWrapper) (acc : List DoItModifierWrapper)
      (w : World) (id : Nat),
      (ms.foldl
        (fun acc d =>
          let (d', w') := d.doIt acc.2
          (acc.1 ++ [d'], w'))
        (acc, w)).2.typeNameOf id = w.typeNameOf id
  | [], _, _, _ => rfl
  | d :: ms, acc, w, id => by
      simp only [List.foldl_cons]
      rw [typeNameOf_xcommand_fold ms (acc ++ [(d.doIt w).1]) (d.doIt w).2 id]
      show ((w.applyOps d.mmod.pending)).typeNameOf id = _
      rw [typeNameOf_applyOps]

theorem namesNot_applyOp (w : World) (op : HostOp) (nm : String)
    (hn : ∀ e ∈ w.nodes, ¬ e.2.name = nm) (hr : op.renamesTo nm = false) :
    ∀ e ∈ (w.applyOp op).nodes, ¬ e.2.name = nm := by
  have hset : ∀ (g : (Nat × WNode) → (Nat × WNode)),
      (∀ p, (g p).2.name = p.2.name ∨ (g p).2.name ≠ nm) →
      ∀ e ∈ w.nodes.map g, ¬ e.2.name = nm := by
    intro g hg e he
    obtain ⟨p, hp, rfl⟩ := List.mem_map.mp he
    rcases hg p with h | h
    · rw [h]; exact hn p hp
    · exact h
  cases op with
  | createDGNode mob t =>
      exact hset _ (fun p => by by_cases h : p.1 = mob <;> simp [World.setAdded, h])
  | createDagNode mob t par =>
      exact hset _ (fun p => by by_cases h : p.1 = mob <;> simp [World.setAdded, h])
  | createDagPair trn child t =>
      intro e he
      have h1 : ∀ e ∈ World.setAdded w.nodes trn true, ¬ e.2.name = nm :=
        hset _ (fun p => by by_cases h : p.1 = trn <;> simp [World.setAdded, h])
      obtain ⟨p, hp, rfl⟩ := List.mem_map.mp he
      by_cases h : p.1 = child
      · simp only [World.setAdded, h, if_true]
        exact h1 p hp
      · simp only [World.setAdded, h, if_false]
        exact h1 p hp
  | renameNode mob newName =>
      have hnew : ¬ newName = nm := by
        simpa [HostOp.renamesTo] using hr
      exact hset _ (fun p => by
        by_cases h : p.1 = mob
        · right; simp [World.setName, h]; exact hnew
        · left; simp [World.setName, h])
  | reparentNode mob par =>
      exact hset _ (fun p => by by_cases h : p.1 = mob <;> simp [World.setParents, h])
  | command c => exact hn

theorem namesNot_applyOps :
    ∀ (l : List HostOp) (w : World) (nm : String),
      (∀ e ∈ w.nodes, ¬ e.2.name = nm) →
      (∀ op ∈ l, op.renamesTo nm = false) →
      ∀ e ∈ (w.applyOps l).nodes, ¬ e.2.name = nm
  | [], _, _, hn, _ => hn
  | op :: l, w, nm, hn, hr => by
      show ∀ e ∈ ((w.applyOp op).applyOps l).nodes, ¬ e.2.name = nm
      exact namesNot_applyOps l (w.applyOp op) nm
        (namesNot_applyOp w op nm hn (hr op (List.mem_cons_self op l)))
        (fun o ho => hr o (List.mem_cons_of_mem op ho))

theorem objExists_eq_false_of_namesNot (w : World) (nm : String)
    (hn : ∀ e ∈ w.nodes, ¬ e.2.name = nm) : w.objExists nm = false := by
  simp only [World.objExists, List.any_eq_false]
  intro e he
  simp only [Bool.and_eq_true, decide_eq_true_eq, not_and]
  intro _
  exact hn e he

theorem split_setter (n j : Nat) (f : WNode → WNode)
    (tail pre : List (Nat × WNode))
    (htail : ∀ e ∈ tail, n ≤ e.1) (hj : j < n)
    (hpre : ∀ e ∈ pre, e.1 < n ∧ ∀ q ∈ e.2.parents, q < n)
    (hf : ∀ nd : WNode, ∀ q ∈ (f nd).parents, q ∈ nd.parents ∨ q < n) :
    ((pre ++ tail).map (fun p => if p.1 = j then (p.1, f p.2) else p)) =
      (pre.map (fun p => if p.1 = j then (p.1, f p.2) else p)) ++ tail ∧
    ∀ e ∈ pre.map (fun p => if p.1 = j then (p.1, f p.2) else p),
      e.1 < n ∧ ∀ q ∈ e.2.parents, q < n := by
  constructor
  · rw [List.map_append]
    congr 1
    apply map_id_of
    intro e he
    have : ¬ e.1 = j := by
      have := htail e he
      omega
    simp [this]
  · intro e he
    obtain ⟨p, hp, rfl⟩ := List.mem_map.mp he
    obtain ⟨hk, hps⟩ := hpre p hp
    by_cases h : p.1 = j
    · simp only [h, if_true]
      refine ⟨by simpa [h] using hk, ?_⟩
      intro q hq
      rcases hf p.2 q hq with hq' | hq'
      · exact hps q hq'
      · exact hq'
    · simp only [h, if_false]
      exact ⟨hk, hps⟩

theorem split_applyOp (n : Nat) (tail : List (Nat × WNode)) (w : World)
    (op : HostOp) (pre : List (Nat × WNode))
    (htail : ∀ e ∈ tail, n ≤ e.1)
    (hop : ∀ id ∈ op.idsOf, id < n)
    (hw : w.nodes = pre ++ tail)
    (hpre : ∀ e ∈ pre, e.1 < n ∧ ∀ q ∈ e.2.parents, q < n) :
    ∃ pre', (w.applyOp op).nodes = pre' ++ tail ∧
      ∀ e ∈ pre', e.1 < n ∧ ∀ q ∈ e.2.parents, q < n := by
  cases op with
  | createDGNode mob t =>
      have hmob : mob < n := hop mob (by simp [HostOp.idsOf])
      obtain ⟨h1, h2⟩ := split_setter n mob (fun nd => { nd with added := true })
        tail pre htail hmob hpre (fun nd q hq => Or.inl hq)
      exact ⟨_, by simpa [World.applyOp, World.setAdded, hw] using h1, h2⟩
  | createDagNode mob t par =>
      have hmob : mob < n := hop mob (by simp [HostOp.idsOf])
      obtain ⟨h1, h2⟩ := split_setter n mob (fun nd => { nd with added := true })
        tail pre htail hmob hpre (fun nd q hq => Or.inl hq)
      exact ⟨_, by simpa [World.applyOp, World.setAdded, hw] using h1, h2⟩
  | createDagPair trn child t =>
      have htrn : trn < n := hop trn (by simp [HostOp.idsOf])
      have hchild : child < n := hop child (by simp [HostOp.idsOf])
      obtain ⟨h1, h2⟩ := split_setter n trn (fun nd => { nd with added := true })
        tail pre htail htrn hpre (fun nd q hq => Or.inl hq)
      obtain ⟨h3, h4⟩ := split_setter n child (fun nd => { nd with added := true })
        tail _ htail hchild h2 (fun nd q hq => Or.inl hq)
      refine ⟨_, ?_, h4⟩
      show World.setAdded (World.setAdded w.nodes trn true) child true = _ ++ tail
      rw [show World.setAdded w.nodes trn true =
        w.nodes.map (fun p => if p.1 = trn then (p.1, { p.2 with added := true }) else p)
        from rfl]
      rw [hw, h1]
      exact h3
  | renameNode mob nm =>
      have hmob : mob < n := hop mob (by simp [HostOp.idsOf])
      obtain ⟨h1, h2⟩ := split_setter n mob (fun nd => { nd with name := nm })
        tail pre htail hmob hpre (fun nd q hq => Or.inl hq)
      exact ⟨_, by simpa [World.applyOp, World.setName, hw] using h1, h2⟩
  | reparentNode mob par =>
      have hmob : mob < n := hop mob (by simp [HostOp.idsOf])
      have hpar : ∀ q ∈ par.toList, q < n := by
        intro q hq
        exact hop q (by
          simp only [HostOp.idsOf, List.mem_cons]
          right
          exact hq)
      obtain ⟨h1, h2⟩ := split_setter n mob (fun nd => { nd with parents := par.toList })
        tail pre htail hmob hpre (fun nd q hq => Or.inr (hpar q hq))
      exact ⟨_, by simpa [World.applyOp, World.setParents, hw] using h1, h2⟩
  | command c =>
      exact ⟨pre, by simpa [World.applyOp] using hw, hpre⟩

theorem split_applyOps :
    ∀ (l : List HostOp) (n : Nat) (tail : List (Nat × WNode)) (w : World)
      (pre : List (Nat × WNode)),
      (∀ e ∈ tail, n ≤ e.1) →
      (∀ op ∈ l, ∀ id ∈ op.idsOf, id < n) →
      w.nodes = pre ++ tail →
      (∀ e ∈ pre, e.1 < n ∧ ∀ q ∈ e.2.parents, q < n) →
      ∃ pre', (w.applyOps l).nodes = pre' ++ tail ∧
        ∀ e ∈ pre', e.1 < n ∧ ∀ q ∈ e.2.parents, q < n
  | [], n, tail, w, pre, htail, hops, hw, hpre => ⟨pre, hw, hpre⟩
  | op :: l, n, tail, w, pre, htail, hops, hw, hpre => by
      obtain ⟨pre', hw', hpre'⟩ := split_applyOp n tail w op pre htail
        (hops op (List.mem_cons_self op l)) hw hpre
      exact split_applyOps l n tail (w.applyOp op) pre' htail
        (fun o ho => hops o (List.mem_cons_of_mem op ho)) hw' hpre'

theorem childrenOf_concrete (w : World)
    (pre' : List (Nat × WNode)) (n trn c : Nat) (tE cE : WNode)
    (hnod : w.nodes = pre' ++ [(trn, tE), (c, cE)])
    (hpre : ∀ e ∈ pre', ∀ q ∈ e.2.parents, q < n)
    (htrn : n ≤ trn)
    (htE : tE.parents = [])
    (hcEp : cE.parents = [trn]) (hcEa : cE.added = true) :
    w.childrenOf trn = [c] := by
  simp only [World.childrenOf, hnod, List.filter_append]
  rw [List.filter_eq_nil_iff.mpr ?hpre0]
  case hpre0 =>
    intro e he
    have hps := hpre e he
    simp only [Bool.and_eq_true, decide_eq_true_eq, not_and]
    intro _ hmem
    have := hps trn hmem
    omega
  simp [htE, hcEp, hcEa]

theorem applyOps_singleton (w : World) (op : HostOp) :
    w.applyOps [op] = w.applyOp op := rfl

theorem append_one_ne_empty (t : String) : ¬ (t ++ "1" = "") := by
  intro he
  have hd : (t ++ "1").data = t.data ++ ['1'] := rfl
  rw [he] at hd
  have : ([] : List Char) = t.data ++ ['1'] := hd
  have hlen := congrArg List.length this
  simp at hlen

theorem pair_apply_nodes (n c' : Nat) (pre' : List (Nat × WNode))
    (tE cE : WNode) (w : World) (t : String)
    (hnod : w.nodes = pre' ++ [(n, tE), (c', cE)])
    (hpre : ∀ e ∈ pre', e.1 < n) (hc : n < c') :
    (w.applyOp (.createDagPair n c' t)).nodes =
      pre' ++ [(n, { tE with added := true }), (c', { cE with added := true })] := by
  show World.setAdded (World.setAdded w.nodes n true) c' true = _
  rw [hnod]
  rw [show World.setAdded (pre' ++ [(n, tE), (c', cE)]) n true =
    (pre' ++ [(n, tE), (c', cE)]).map
      (fun p => if p.1 = n then (p.1, { p.2 with added := true }) else p) from rfl]
  rw [List.map_append]
  rw [map_id_of _ pre' (by
    intro e he
    have := hpre e he
    have hne : ¬ e.1 = n := by omega
    simp [hne])]
  have hcn : ¬ (c' = n) := by omega
  have hnc : ¬ (n = c') := by omega
  simp only [List.map_cons, List.map_nil, if_pos rfl, hcn, if_false, reduceIte]
  rw [show World.setAdded (pre' ++ [(n, { tE with added := true }), (c', cE)]) c' true =
    (pre' ++ [(n, { tE with added := true }), (c', cE)]).map
      (fun p => if p.1 = c' then (p.1, { p.2 with added := true }) else p) from rfl]
  rw [List.map_append]
  rw [map_id_of _ pre' (by
    intro e he
    have := hpre e he
    have hne : ¬ e.1 = c' := by omega
    simp [hne])]
  simp only [List.map_cons, List.map_nil, hnc, if_false, if_pos rfl, reduceIte]

theorem findNode_append_pre_none (nid : Nat) (tr : List HEvent)
    (pre tail : List (Nat × WNode)) (j : Nat)
    (hpre : ∀ e ∈ pre, ¬ e.1 = j) :
    World.findNode ⟨nid, pre ++ tail, tr⟩ j = World.findNode ⟨nid, tail, tr⟩ j := by
  simp only [World.findNode, List.find?_append]
  rw [List.find?_eq_none.mpr (by
    intro e he
    simpa using hpre e he)]
  rfl

theorem typeNameOf_invoke (s : Session) (id : Nat) :
    (s.invokeALOMXCommand).2.world.typeNameOf id = s.world.typeNameOf id := by
  simp only [Session.invokeALOMXCommand, getAndClearModifierStack, XCommand.doIt]
  exact typeNameOf_xcommand_fold _ [] s.world id

theorem typeNameOf_xmodDoIt (s : Session) (i : Nat) (keep : Bool) (id : Nat) :
    (s.xmodDoIt i keep).2.world.typeNameOf id = s.world.typeNameOf id := by
  unfold Session.xmodDoIt
  by_cases h : i < s.stack.length
  · rw [dif_pos h]
    dsimp only
    split
    · exact typeNameOf_invoke s id
    · simp only [MModifier.doIt]
      exact typeNameOf_applyOps _ s.world id
  · rw [dif_neg h]

theorem typeNameOf_doIt (m : MModifier) (w : World) (id : Nat) :
    (m.doIt w).2.typeNameOf id = w.typeNameOf id :=
  typeNameOf_applyOps m.pending w id

theorem pair_doIt_children (m : MModifier) (w : World) (t : String)
    (happ : m.applied ≤ m.ops.length)
    (hids : ∀ op ∈ m.ops, ∀ q ∈ op.idsOf, q < w.nextId)
    (hw : ∀ e ∈ w.nodes, e.1 < w.nextId ∧ ∀ q ∈ e.2.parents, q < w.nextId) :
    (({ m with ops := m.ops ++
          [.createDagPair w.nextId (w.nextId + 1) t] } : MModifier).doIt
        { w with
            nextId := w.nextId + 1 + 1
            nodes := w.nodes ++ [(w.nextId, ⟨"transform", "", true, [], false⟩)] ++
              [(w.nextId + 1, ⟨t, "", true, [w.nextId], false⟩)] }).2.childrenOf
      w.nextId = [w.nextId + 1] := by
  simp only [MModifier.doIt]
  rw [pending_append_ops m _ happ, World.applyOps_append, applyOps_singleton]
  have htail : ∀ e ∈ [(w.nextId, (⟨"transform", "", true, [], false⟩ : WNode)),
      (w.nextId + 1, (⟨t, "", true, [w.nextId], false⟩ : WNode))], w.nextId ≤ e.1 := by
    intro e he
    rcases List.mem_cons.mp he with rfl | he
    · exact Nat.le_refl _
    rcases List.mem_cons.mp he with rfl | he
    · exact Nat.le_succ _
    · exact absurd he (List.not_mem_nil _)
  have hops : ∀ op ∈ m.pending, ∀ q ∈ op.idsOf, q < w.nextId := by
    intro op hop
    exact hids op (List.drop_subset _ _ hop)
  obtain ⟨pre', hsplit, hpre'⟩ := split_applyOps m.pending w.nextId
    [(w.nextId, ⟨"transform", "", true, [], false⟩),
     (w.nextId + 1, ⟨t, "", true, [w.nextId], false⟩)]
    { w with
        nextId := w.nextId + 1 + 1
        nodes := w.nodes ++ [(w.nextId, ⟨"transform", "", true, [], false⟩)] ++
          [(w.nextId + 1, ⟨t, "", true, [w.nextId], false⟩)] }
    w.nodes htail hops (by simp) hw
  have hnodes := pair_apply_nodes w.nextId (w.nextId + 1) pre'
    ⟨"transform", "", true, [], false⟩ ⟨t, "", true, [w.nextId], false⟩
    _ t hsplit (fun e he => (hpre' e he).1) (Nat.lt_succ_self _)
  exact childrenOf_concrete _ pre' w.nextId w.nextId (w.nextId + 1) _ _ hnodes
    (fun e he => (hpre' e he).2) (Nat.le_refl _) rfl rfl rfl

theorem pair_doIt_closest (m : MModifier) (w : World) (t : String)
    (happ : m.applied ≤ m.ops.length)
    (hnames : ∀ e ∈ w.nodes, ¬ e.2.name = t ++ "1")
    (hnoren : ∀ op ∈ m.pending, op.renamesTo (t ++ "1") = false)
    (hfc : firstCharOk (t ++ "1") = true) :
    closestAvailableNodeName
      (({ m with ops := m.ops ++
            [.createDagPair w.nextId (w.nextId + 1) t] } : MModifier).doIt
          { w with
              nextId := w.nextId + 1 + 1
              nodes := w.nodes ++ [(w.nextId, ⟨"transform", "", true, [], false⟩)] ++
                [(w.nextId + 1, ⟨t, "", true, [w.nextId], false⟩)] }).2
      ((({ m with ops := m.ops ++
            [.createDagPair w.nextId (w.nextId + 1) t] } : MModifier).doIt
          { w with
              nextId := w.nextId + 1 + 1
              nodes := w.nodes ++ [(w.nextId, ⟨"transform", "", true, [], false⟩)] ++
                [(w.nextId + 1, ⟨t, "", true, [w.nextId], false⟩)] }).2.nodes.length + 1)
      (t ++ "1") = some (t ++ "1") := by
  simp only [MModifier.doIt]
  have hnames2 : ∀ e ∈ (w.nodes ++ [(w.nextId, (⟨"transform", "", true, [], false⟩ : WNode))] ++
      [(w.nextId + 1, (⟨t, "", true, [w.nextId], false⟩ : WNode))]), ¬ e.2.name = t ++ "1" := by
    intro e he
    rcases List.mem_append.mp he with he | he
    · rcases List.mem_append.mp he with he | he
      · exact hnames e he
      · rcases List.mem_singleton.mp he with rfl
        intro hc
        exact append_one_ne_empty t hc.symm
    · rcases List.mem_singleton.mp he with rfl
      intro hc
      exact append_one_ne_empty t hc.symm
  have hnoren2 : ∀ op ∈ ({ m with ops := m.ops ++
      [.createDagPair w.nextId (w.nextId + 1) t] } : MModifier).pending,
      op.renamesTo (t ++ "1") = false := by
    rw [pending_append_ops m _ happ]
    intro op hop
    rcases List.mem_append.mp hop with hop | hop
    · exact hnoren op hop
    · rcases List.mem_singleton.mp hop with rfl
      rfl
  have hnA := namesNot_applyOps
    (({ m with ops := m.ops ++
        [.createDagPair w.nextId (w.nextId + 1) t] } : MModifier).pending)
    { w with
        nextId := w.nextId + 1 + 1
        nodes := w.nodes ++ [(w.nextId, ⟨"transform", "", true, [], false⟩)] ++
          [(w.nextId + 1, ⟨t, "", true, [w.nextId], false⟩)] }
    (t ++ "1") hnames2 hnoren2
  have hobj := objExists_eq_false_of_namesNot _ _ hnA
  simp only [closestAvailableNodeName]
  rw [if_neg (append_one_ne_empty t)]
  rw [if_pos (by simp only [hobj]; decide)]
  rw [if_pos hfc]

theorem typeNameOf_pair_alloc_trn (w : World) (t : String)
    (hw : ∀ e ∈ w.nodes, e.1 < w.nextId) :
    ({ w with
        nextId := w.nextId + 1 + 1
        nodes := w.nodes ++ [(w.nextId, ⟨"transform", "", true, [], false⟩)] ++
          [(w.nextId + 1, ⟨t, "", true, [w.nextId], false⟩)] } : World).typeNameOf
      w.nextId = some "transform" := by
  simp only [World.typeNameOf, World.findNode, List.append_assoc, List.find?_append]
  rw [List.find?_eq_none.mpr (by
    intro e he
    have := hw e he
    simp only [decide_eq_true_eq]
    omega)]
  rw [List.find?_cons_of_pos _ (by simp)]
  rfl

theorem typeNameOf_pair_alloc_child (w : World) (t : String)
    (hw : ∀ e ∈ w.nodes, e.1 < w.nextId) :
    ({ w with
        nextId := w.nextId + 1 + 1
        nodes := w.nodes ++ [(w.nextId, ⟨"transform", "", true, [], false⟩)] ++
          [(w.nextId + 1, ⟨t, "", true, [w.nextId], false⟩)] } : World).typeNameOf
      (w.nextId + 1) = some t := by
  simp only [World.typeNameOf, World.findNode, List.append_assoc, List.find?_append]
  rw [List.find?_eq_none.mpr (by
    intro e he
    have := hw e he
    simp only [decide_eq_true_eq]
    omega)]
  rw [List.find?_cons_of_neg _ (by simp)]
  rw [List.find?_cons_of_pos _ (by simp)]
  rfl

/-- C8: `createDagNode` with a DAG, non-transform type, no parent and
    `manageTransformIfNeeded=True` succeeds with a handle whose type name is
    the requested type (the auto-created transform's child), not
    `"transform"`; with `returnAllCreated=True` it returns the pair in
    creation order, transform first.  The hypotheses say the session world
    and the member's transaction are well formed (all mentioned identities
    are below the allocation counter, the applied counter is in range), no
    existing node or pending rename collides with the `typeName + "1"`
    rename target, and that name starts with a letter or underscore. -/
theorem createDagNode_transform_contract
    (reg : TypeRegistry) (s : Session) (i : Nat) (h : i < s.stack.length)
    (typeName nodeName : String) (returnAllCreated : Bool)
    (hdag : reg.isDagType typeName = true)
    (htr : reg.isTransformType typeName = false)
    (htrt : reg.isTransformType "transform" = true)
    (hwfb : s.world.wfb = true)
    (hids : (s.stack.get ⟨i, h⟩).mmod.idsBelow s.world.nextId = true)
    (happ : (s.stack.get ⟨i, h⟩).mmod.applied ≤ (s.stack.get ⟨i, h⟩).mmod.ops.length)
    (hnames : (s.world.nodes.all (fun p => ¬ p.2.name = typeName ++ "1")) = true)
    (hnorename : ((s.stack.get ⟨i, h⟩).mmod.pending.all
        (fun op => ¬ op.renamesTo (typeName ++ "1"))) = true)
    (hfc : firstCharOk (typeName ++ "1") = true) :
    (Session.createDagNode reg s i typeName none nodeName true returnAllCreated).1 =
      .ok (if returnAllCreated then
             .all [s.world.nextId, s.world.nextId + 1]
           else .single (s.world.nextId + 1)) ∧
    (Session.createDagNode reg s i typeName none nodeName true
        returnAllCreated).2.world.typeNameOf (s.world.nextId + 1) = some typeName ∧
    (Session.createDagNode reg s i typeName none nodeName true
        returnAllCreated).2.world.typeNameOf s.world.nextId = some "transform" ∧
    typeName ≠ "transform" := by
  have hne : typeName ≠ "transform" := by
    intro he
    rw [he, htrt] at htr
    exact absurd htr (by decide)
  simp only [World.wfb, List.all_eq_true, Bool.and_eq_true, decide_eq_true_eq] at hwfb
  simp only [MModifier.idsBelow, List.all_eq_true, decide_eq_true_eq] at hids
  simp only [List.all_eq_true, decide_eq_true_eq] at hnames
  simp only [List.all_eq_true, decide_eq_true_eq, Bool.not_eq_true] at hnorename
  have hcreate : MModifier.createDagNode reg (s.stack.get ⟨i, h⟩).mmod s.world
      typeName none =
      .ok (s.world.nextId,
        { (s.stack.get ⟨i, h⟩).mmod with
            ops := (s.stack.get ⟨i, h⟩).mmod.ops ++
              [.createDagPair s.world.nextId (s.world.nextId + 1) typeName] },
        { s.world with
            nextId := s.world.nextId + 1 + 1
            nodes := s.world.nodes ++
                [(s.world.nextId, ⟨"transform", "", true, [], false⟩)] ++
              [(s.world.nextId + 1,
                  ⟨typeName, "", true, [s.world.nextId], false⟩)] }) := by
    simp [MModifier.createDagNode, hdag, htr, World.alloc]
  simp only [Session.createDagNode, dif_pos h]
  rw [hcreate]
  dsimp only
  simp only [if_true]
  rw [pair_doIt_children (s.stack.get ⟨i, h⟩).mmod s.world typeName happ hids hwfb]
  dsimp only
  rw [pair_doIt_closest (s.stack.get ⟨i, h⟩).mmod s.world typeName happ hnames
    hnorename hfc]
  dsimp only
  refine ⟨?_, ?_, ?_, hne⟩
  · split
    · rfl
    · rfl
  · split
    · dsimp only
      rw [typeNameOf_xmodDoIt]
      dsimp only
      rw [typeNameOf_doIt, typeNameOf_doIt]
      exact typeNameOf_pair_alloc_child s.world typeName (fun e he => (hwfb e he).1)
    · dsimp only
      rw [typeNameOf_doIt, typeNameOf_doIt]
      exact typeNameOf_pair_alloc_child s.world typeName (fun e he => (hwfb e he).1)
  · split
    · dsimp only
      rw [typeNameOf_xmodDoIt]
      dsimp only
      rw [typeNameOf_doIt, typeNameOf_doIt]
      exact typeNameOf_pair_alloc_trn s.world typeName (fun e he => (hwfb e he).1)
    · dsimp only
      rw [typeNameOf_doIt, typeNameOf_doIt]
      exact typeNameOf_pair_alloc_trn s.world typeName (fun e he => (hwfb e he).1)

/-- Witness for C8: a deferred modifier on an empty world creating a
    `"mesh"` under an auto-managed transform. -/
theorem createDagNode_transform_contract_witness :
    (Session.createDagNode
        ⟨fun t => t == "transform" || t == "mesh", fun t => t == "transform"⟩
        ⟨[XModifier.new false], World.empty, ⟨[], false⟩⟩
        0 "mesh" none "" true false).1 = .ok (.single 1) ∧
    (Session.createDagNode
        ⟨fun t => t == "transform" || t == "mesh", fun t => t == "transform"⟩
        ⟨[XModifier.new false], World.empty, ⟨[], false⟩⟩
        0 "mesh" none "" true false).2.world.typeNameOf 1 = some "mesh" ∧
    (Session.createDagNode
        ⟨fun t => t == "transform" || t == "mesh", fun t => t == "transform"⟩
        ⟨[XModifier.new false], World.empty, ⟨[], false⟩⟩
        0 "mesh" none "" true false).2.world.typeNameOf 0 = some "transform" ∧
    "mesh" ≠ "transform" :=
  createDagNode_transform_contract
    ⟨fun t => t == "transform" || t == "mesh", fun t => t == "transform"⟩
    ⟨[XModifier.new false], World.empty, ⟨[], false⟩⟩
    0 (by decide) "mesh" "" false
    (by decide) (by decide) (by decide) (by decide) (by decide) (by decide)
    (by decide) (by decide) (by decide)

/-! ### C4: visibility of deferred edits, including the eager creates -/

/-- A rename changes a node's name only: the host children query, which
    reads the added flags and the parent links, is unaffected. -/
theorem filter_map_graph (g : (Nat × WNode) → (Nat × WNode))
    (hg1 : ∀ p, (g p).1 = p.1)
    (hg2 : ∀ p, (g p).2.added = p.2.added)
    (hg3 : ∀ p, (g p).2.parents = p.2.parents) :
    ∀ (ns : List (Nat × WNode)) (id : Nat),
      ((ns.map g).filter
          (fun p => p.2.added && decide (id ∈ p.2.parents))).map (fun p => p.1)
        = (ns.filter
            (fun p => p.2.added && decide (id ∈ p.2.parents))).map (fun p => p.1)
  | [], _ => rfl
  | p :: ns, id => by
      simp only [List.map_cons, List.filter_cons, hg2, hg3]
      split
      · simp only [List.map_cons, hg1]
        rw [filter_map_graph g hg1 hg2 hg3 ns id]
      · exact filter_map_graph g hg1 hg2 hg3 ns id

theorem childrenOf_applyOp_rename (w : World) (j : Nat) (nm : String) (id : Nat) :
    (w.applyOp (.renameNode j nm)).childrenOf id = w.childrenOf id := by
  simp only [World.applyOp, World.childrenOf, World.setName]
  exact filter_map_graph _
    (fun p => by by_cases hp : p.1 = j <;> simp [hp])
    (fun p => by by_cases hp : p.1 = j <;> simp [hp])
    (fun p => by by_cases hp : p.1 = j <;> simp [hp]) w.nodes id

theorem childrenOf_applyOps_renames :
    ∀ (l : List HostOp) (w : World) (id : Nat),
      (∀ op ∈ l, ∃ j nm, op = HostOp.renameNode j nm) →
      (w.applyOps l).childrenOf id = w.childrenOf id
  | [], _, _, _ => rfl
  | op :: l, w, id, hl => by
      show ((w.applyOp op).applyOps l).childrenOf id = _
      rw [childrenOf_applyOps_renames l (w.applyOp op) id
        (fun o ho => hl o (List.mem_cons_of_mem op ho))]
      obtain ⟨j, nm, rfl⟩ := hl op (List.mem_cons_self op l)
      exact childrenOf_applyOp_rename w j nm id

/-- After a full `doIt`, nothing is pending. -/
theorem pending_doIt_fst (m : MModifier) (w : World) :
    ((m.doIt w).1).pending = [] := by
  simp [MModifier.doIt, MModifier.pending, List.drop_length]

theorem pending_renameNode (m : MModifier) (j : Nat) (nm : String)
    (hm : m.applied ≤ m.ops.length) :
    (m.renameNode j nm).pending = m.pending ++ [.renameNode j nm] :=
  pending_append_ops m _ hm

/-- Flushing a just-flushed modifier extended by one rename leaves the
    children query unchanged. -/
theorem childrenOf_one_rename (m : MModifier) (w : World) (a : Nat)
    (nm1 : String) (id : Nat) :
    ((((m.doIt w).1.renameNode a nm1).doIt (m.doIt w).2)).2.childrenOf id =
      (m.doIt w).2.childrenOf id := by
  have hp : ((m.doIt w).1.renameNode a nm1).pending = [.renameNode a nm1] := by
    rw [pending_renameNode _ _ _ (Nat.le_refl _), pending_doIt_fst]
    rfl
  show ((m.doIt w).2.applyOps
      ((m.doIt w).1.renameNode a nm1).pending).childrenOf id = _
  rw [hp]
  exact childrenOf_applyOps_renames _ _ _ (by
    intro op hop
    rcases List.mem_singleton.mp hop with rfl
    exact ⟨a, nm1, rfl⟩)

/-- The two-rename variant (the optional `nodeName` rename on top). -/
theorem childrenOf_two_renames (m : MModifier) (w : World) (a b : Nat)
    (nm1 nm2 : String) (id : Nat) :
    ((((((m.doIt w).1.renameNode a nm1).renameNode b nm2)).doIt
        (m.doIt w).2)).2.childrenOf id =
      (m.doIt w).2.childrenOf id := by
  have hp : (((m.doIt w).1.renameNode a nm1).renameNode b nm2).pending =
      [.renameNode a nm1, .renameNode b nm2] := by
    rw [pending_renameNode _ _ _ (by
      simp [MModifier.doIt, MModifier.renameNode])]
    rw [pending_renameNode _ _ _ (Nat.le_refl _), pending_doIt_fst]
    rfl
  show ((m.doIt w).2.applyOps
      (((m.doIt w).1.renameNode a nm1).renameNode b nm2).pending).childrenOf id = _
  rw [hp]
  exact childrenOf_applyOps_renames _ _ _ (by
    intro op hop
    rcases List.mem_cons.mp hop with rfl | hop
    · exact ⟨a, nm1, rfl⟩
    rcases List.mem_singleton.mp hop with rfl
    exact ⟨b, nm2, rfl⟩)

/-- C4 counterexample: a deferred modifier on an empty world.  `createDGNode`
    returns with the create already applied to the host — the `did` event is
    in the trace and the node is in the graph — although `doIt()` has never
    been called on the (deferred) modifier. -/
theorem deferred_create_visible_counterexample :
    ((⟨[XModifier.new false], World.empty, NodeCreationLog.empty⟩ : Session).createDGNode
        0 "transform" "").2.world.trace =
      [.did (.createDGNode 0 "transform")] ∧
    (((⟨[XModifier.new false], World.empty, NodeCreationLog.empty⟩ : Session).createDGNode
        0 "transform" "").2.world.findNode 0).map (fun n => n.added) = some true ∧
    ((⟨[XModifier.new false], World.empty, NodeCreationLog.empty⟩ : Session).createDGNode
        0 "transform" "").2.stack.map (fun x => (x.immediate, x.isClean)) =
      [(false, false)] := by
  decide

/-- C4 amended: for a deferred Modifier, a non-creation edit
    (`commandToExecute`) is invisible to the host until `doIt()` runs and
    visible afterwards; `createDGNode` and `createDagNode`, by contrast,
    apply their pending operations eagerly inside the call (to obtain a
    valid handle), so the created nodes are visible before any `doIt()`:
    after `createDGNode` the create (and optional rename) events are already
    in the host trace, and after `createDagNode` (non-transform type, no
    parent, transform management on) the requested-type node is already
    reported by the host children query as the auto transform's child. -/
theorem deferred_visibility_amended :
    ∀ (s : Session) (i : Nat) (h : i < s.stack.length)
      (cmd typeName nodeName : String),
      (s.stack.get ⟨i, h⟩).immediate = false →
      (s.stack.get ⟨i, h⟩).mmod.applied ≤ (s.stack.get ⟨i, h⟩).mmod.ops.length →
      (s.commandToExecute i cmd).world = s.world ∧
      ((s.commandToExecute i cmd).xmodDoIt i false).2.world.trace =
        s.world.trace ++
          ((s.stack.get ⟨i, h⟩).mmod.pending ++ [HostOp.command cmd]).map
            HEvent.did ∧
      ((s.createDGNode i typeName nodeName).2.world.trace =
        s.world.trace ++
          ((s.stack.get ⟨i, h⟩).mmod.pending ++
            [HostOp.createDGNode s.world.nextId typeName] ++
            (if nodeName ≠ "" then [HostOp.renameNode s.world.nextId nodeName]
             else [])).map HEvent.did) ∧
      (∀ (reg : TypeRegistry) (returnAllCreated : Bool),
        reg.isDagType typeName = true →
        reg.isTransformType typeName = false →
        s.world.wfb = true →
        (s.stack.get ⟨i, h⟩).mmod.idsBelow s.world.nextId = true →
        (s.world.nodes.all (fun p => ¬ p.2.name = typeName ++ "1")) = true →
        ((s.stack.get ⟨i, h⟩).mmod.pending.all
            (fun op => ¬ op.renamesTo (typeName ++ "1"))) = true →
        firstCharOk (typeName ++ "1") = true →
        (Session.createDagNode reg s i typeName none nodeName true
            returnAllCreated).2.world.childrenOf s.world.nextId =
          [s.world.nextId + 1]) := by
  intro s i h cmd typeName nodeName himm hwf
  refine ⟨?_, ?_, ?_, ?_⟩
  · rw [commandToExecute_deferred_eq s i h cmd himm]
  · rw [commandToExecute_deferred_eq s i h cmd himm]
    have hlen : i < ((s.stack.set i
        { s.stack.get ⟨i, h⟩ with
            journal := (s.stack.get ⟨i, h⟩).journal ++
              [⟨"commandToExecute", [("command", cmd)]⟩],
            clean := false,
            mmod := (s.stack.get ⟨i, h⟩).mmod.commandToExecute cmd })).length := by
      rw [List.length_set]; exact h
    rw [xmodDoIt_deferred_eq _ i hlen false (by
      rw [List.get_eq_getElem]
      simp only [List.getElem_set_self]
      rw [List.get_eq_getElem] at himm
      exact himm)]
    simp only [List.get_eq_getElem, List.getElem_set_self]
    rw [show ((s.stack[i].mmod.commandToExecute cmd)) =
        { s.stack[i].mmod with
            ops := s.stack[i].mmod.ops ++ [HostOp.command cmd] } from rfl]
    rw [List.get_eq_getElem] at hwf
    rw [pending_append_ops _ _ hwf, World.applyOps_trace]
  · rw [List.get_eq_getElem] at himm hwf ⊢
    by_cases hname : nodeName = ""
    · subst hname
      simp only [Session.createDGNode, dif_pos h, MModifier.createDGNode,
        MModifier.doIt, List.get_eq_getElem, himm, Bool.false_eq_true, if_false,
        ne_eq, not_true_eq_false, reduceIte, World.alloc]
      rw [show ({ s.stack[i].mmod with
            ops := s.stack[i].mmod.ops ++
              [HostOp.createDGNode s.world.nextId typeName] } :
            MModifier).pending =
          s.stack[i].mmod.pending ++ [HostOp.createDGNode s.world.nextId typeName]
          from pending_append_ops _ _ hwf]
      rw [World.applyOps_trace]
      simp
    · simp only [Session.createDGNode, dif_pos h, MModifier.createDGNode,
        MModifier.renameNode, MModifier.doIt, List.get_eq_getElem, himm,
        Bool.false_eq_true, if_false, ne_eq, hname, not_false_eq_true, reduceIte,
        World.alloc]
      rw [show ({ s.stack[i].mmod with
            ops := s.stack[i].mmod.ops ++
              [HostOp.createDGNode s.world.nextId typeName] ++
              [HostOp.renameNode s.world.nextId nodeName] } :
            MModifier).pending =
          s.stack[i].mmod.pending ++
            ([HostOp.createDGNode s.world.nextId typeName] ++
              [HostOp.renameNode s.world.nextId nodeName]) from by
        rw [List.append_assoc]
        exact pending_append_ops _ _ hwf]
      rw [World.applyOps_trace]
      simp
  · intro reg returnAllCreated hdag htr hwfb hids hnames hnoren hfc
    simp only [World.wfb, List.all_eq_true, Bool.and_eq_true, decide_eq_true_eq] at hwfb
    simp only [MModifier.idsBelow, List.all_eq_true, decide_eq_true_eq] at hids
    simp only [List.all_eq_true, decide_eq_true_eq] at hnames
    simp only [List.all_eq_true, decide_eq_true_eq, Bool.not_eq_true] at hnoren
    have hcreate : MModifier.createDagNode reg (s.stack.get ⟨i, h⟩).mmod s.world
        typeName none =
        .ok (s.world.nextId,
          { (s.stack.get ⟨i, h⟩).mmod with
              ops := (s.stack.get ⟨i, h⟩).mmod.ops ++
                [.createDagPair s.world.nextId (s.world.nextId + 1) typeName] },
          { s.world with
              nextId := s.world.nextId + 1 + 1
              nodes := s.world.nodes ++
                  [(s.world.nextId, ⟨"transform", "", true, [], false⟩)] ++
                [(s.world.nextId + 1,
                    ⟨typeName, "", true, [s.world.nextId], false⟩)] }) := by
      simp [MModifier.createDagNode, hdag, htr, World.alloc]
    simp only [Session.createDagNode, dif_pos h]
    rw [hcreate]
    dsimp only
    simp only [if_true]
    rw [pair_doIt_children (s.stack.get ⟨i, h⟩).mmod s.world typeName hwf hids hwfb]
    dsimp only
    rw [pair_doIt_closest (s.stack.get ⟨i, h⟩).mmod s.world typeName hwf hnames
      hnoren hfc]
    dsimp only
    split
    · rename_i heq
      rw [show (s.stack.get ⟨i, h⟩).immediate = true from heq] at himm
      exact Bool.noConfusion himm
    · dsimp only
      by_cases hname : nodeName ≠ ""
      · rw [if_pos hname, childrenOf_two_renames]
        exact pair_doIt_children (s.stack.get ⟨i, h⟩).mmod s.world typeName
          hwf hids hwfb
      · rw [if_neg hname, childrenOf_one_rename]
        exact pair_doIt_children (s.stack.get ⟨i, h⟩).mmod s.world typeName
          hwf hids hwfb

/-- C4 witness: the amended theorem applied at a deferred modifier with one
    pending command on an empty world, creating a `"mesh"`. -/
theorem deferred_visibility_amended_witness :
    ((⟨[⟨false, ⟨[.command "P"], 0⟩, [], false⟩], World.empty,
        NodeCreationLog.empty⟩ : Session).commandToExecute 0 "E").world =
      World.empty ∧
    (((⟨[⟨false, ⟨[.command "P"], 0⟩, [], false⟩], World.empty,
        NodeCreationLog.empty⟩ : Session).commandToExecute 0 "E").xmodDoIt
        0 false).2.world.trace =
      [.did (.command "P"), .did (.command "E")] ∧
    ((⟨[⟨false, ⟨[.command "P"], 0⟩, [], false⟩], World.empty,
        NodeCreationLog.empty⟩ : Session).createDGNode 0 "mesh" "n").2.world.trace =
      [.did (.command "P"), .did (.createDGNode 0 "mesh"),
       .did (.renameNode 0 "n")] ∧
    (Session.createDagNode
        ⟨fun t => t == "transform" || t == "mesh", fun t => t == "transform"⟩
        ⟨[⟨false, ⟨[.command "P"], 0⟩, [], false⟩], World.empty,
          NodeCreationLog.empty⟩ 0 "mesh" none "n" true false).2.world.childrenOf 0 =
      [1] := by
  obtain ⟨h1, h2, h3, h4⟩ :=
    deferred_visibility_amended
      ⟨[⟨false, ⟨[.command "P"], 0⟩, [], false⟩], World.empty,
        NodeCreationLog.empty⟩ 0 (by decide) "E" "mesh" "n"
      (by decide) (by decide)
  exact ⟨h1, h2, h3,
    h4 ⟨fun t => t == "transform" || t == "mesh", fun t => t == "transform"⟩ false
      (by decide) (by decide) (by decide) (by decide) (by decide) (by decide)
      (by decide)⟩
